import Mathlib

/-! Wiegand protocol library: embedding and verification.

Shallow embedding of `Wiegand.h` / `Wiegand.cpp`.

* An instance of the C++ class is the record `Wiegand`; the file-scope statics
  (`_intN_instance`), the AVR registers the code touches (`EIMSK`, `EIFR`, the
  global interrupt flag) and the calls made to the Arduino core (`pinMode`,
  `attachInterrupt`, `Serial`) are the record `Hw`.
* Every member function is a function `Hw → Wiegand → ... → Hw × Wiegand (× Bool)`.
* `micros()` is an input: each call of a member function receives the values its
  `micros()` calls return, in the order in which the source makes them.
* `unsigned long` is 32 bits wide on AVR and `uint8_t` 8 bits: arithmetic that can
  leave the range is reduced explicitly.
-/

/-! ## Constants and types of `Wiegand.h` -/

/-- The enum `Wiegand::WiegandStatus` (Wiegand.h:115). -/
inductive WiegandStatus where
  | Uninitialized
  | Idle
  | Receiving
  | Done
  | Error
deriving DecidableEq, Repr

/-- The constant `WIEGAND_MAX_BIT_INTERVAL` (Wiegand.h:106), in microseconds. -/
def WIEGAND_MAX_BIT_INTERVAL : Nat := 5000

/-- The constant `WIEGAND_MAX_BITS` (Wiegand.h:107). -/
def WIEGAND_MAX_BITS : Nat := 36

/-- The constant `WIEGAND_MAX_BYTES` (Wiegand.h:109). -/
def WIEGAND_MAX_BYTES : Nat :=
  WIEGAND_MAX_BITS / 8 + (if WIEGAND_MAX_BITS % 8 = 0 then 0 else 1)

/-- Subtraction of two `unsigned long` values (32 bits on AVR): the result wraps. -/
def subUL (a b : Nat) : Nat :=
  (a % 4294967296 + 4294967296 - b % 4294967296) % 4294967296

/-- The data members of an instance of `class Wiegand` (Wiegand.h:139-158). -/
structure Wiegand where
  _low_int_pin : Nat
  _high_int_pin : Nat
  _first_micros : Nat
  _bit_micros : Nat
  _rcv_buffer : List Nat
  _bit_count : Nat
  _status : WiegandStatus
  status : WiegandStatus
  bit_count : Nat
  rcv_buffer : List Nat
  total_micros : Nat
deriving DecidableEq, Repr

/-- Both buffers are C arrays of `WIEGAND_MAX_BYTES` bytes. -/
def Wiegand.WellFormed (w : Wiegand) : Prop :=
  w._rcv_buffer.length = WIEGAND_MAX_BYTES ∧ w.rcv_buffer.length = WIEGAND_MAX_BYTES

instance (w : Wiegand) : Decidable w.WellFormed := by
  unfold Wiegand.WellFormed; exact inferInstance

/-! ## The environment: target board, statics, registers, Arduino core -/

/-- The microcontroller the library is compiled for; the compiler defines the
macro `__AVR_<name>__` of exactly that one. `other` is any board the source does
not name. -/
inductive Mcu where
  | ATmega328P
  | ATmega168
  | ATmega1280
  | ATmega2560
  | ATmega32U4
  | other
deriving DecidableEq, Repr

/-- The preprocessor test `defined(__AVR_<name>__)` when compiling for `target`. -/
def Mcu.defined (target name : Mcu) : Bool := decide (target = name)

/-- One of the twelve static ISR glue routines `isrN_low` / `isrN_high`
(Wiegand.cpp:221-232): routine `⟨n, v⟩` calls `_intN_instance->readBit(v)`. -/
structure Isr where
  slot : Nat
  val : Bool
deriving DecidableEq, Repr

def isr0_low : Isr := ⟨0, false⟩
def isr1_low : Isr := ⟨1, false⟩
def isr2_low : Isr := ⟨2, false⟩
def isr3_low : Isr := ⟨3, false⟩
def isr4_low : Isr := ⟨4, false⟩
def isr5_low : Isr := ⟨5, false⟩
def isr0_high : Isr := ⟨0, true⟩
def isr1_high : Isr := ⟨1, true⟩
def isr2_high : Isr := ⟨2, true⟩
def isr3_high : Isr := ⟨3, true⟩
def isr4_high : Isr := ⟨4, true⟩
def isr5_high : Isr := ⟨5, true⟩

/-- One call made to the `Serial` object. -/
inductive SerialCall where
  | print (s : String)
  | println (s : String)
  | printDec (n : Nat)
  | printHex (n : Nat)
deriving DecidableEq, Repr

/-- State outside the instance: the six static owner pointers (`none` is `NULL`,
`some a` the address of the owning instance), the external-interrupt mask and
flag registers, the global interrupt-enable flag of `SREG`, and the record of
the calls made to the Arduino core (`pinMode(_, INPUT)`, `attachInterrupt`,
`Serial`), most recent call first. -/
structure Hw where
  _int0_instance : Option Nat
  _int1_instance : Option Nat
  _int2_instance : Option Nat
  _int3_instance : Option Nat
  _int4_instance : Option Nat
  _int5_instance : Option Nat
  EIMSK : Nat
  EIFR : Nat
  sregI : Bool
  inputPins : List Nat
  attached : List (Nat × Isr)
  serial : List SerialCall
deriving DecidableEq, Repr

/-- Bit positions `INT0 .. INT7` of `EIMSK` in the avr-libc device headers:
`INTn` is bit `n`. -/
def INT (n : Nat) : Nat := n

/-- Bit positions `INTF0 .. INTF7` of `EIFR` in the avr-libc device headers:
`INTFn` is bit `n`. -/
def INTF (n : Nat) : Nat := n

/-- The Arduino statement `bitSet(EIMSK, bit)`: `EIMSK |= (1UL << bit)`. -/
def bitSetEIMSK (hw : Hw) (bit : Nat) : Hw :=
  { hw with EIMSK := (hw.EIMSK ||| (1 <<< bit)) % 256 }

/-- The Arduino statement `bitClear(EIMSK, bit)`: `EIMSK &= ~(1UL << bit)`. -/
def bitClearEIMSK (hw : Hw) (bit : Nat) : Hw :=
  { hw with EIMSK := hw.EIMSK &&& (255 ^^^ ((1 <<< bit) % 256)) }

/-- The Arduino statement `bitSet(EIFR, bit)`. `EIFR` holds the pending flags and
a flag is cleared by writing a one to it: the statement clears flag `bit`. -/
def bitSetEIFR (hw : Hw) (bit : Nat) : Hw :=
  { hw with EIFR := hw.EIFR &&& (255 ^^^ ((1 <<< bit) % 256)) }

/-- The call `noInterrupts()`. -/
def noInterrupts (hw : Hw) : Hw := { hw with sregI := false }

/-- The call `interrupts()`. -/
def interrupts (hw : Hw) : Hw := { hw with sregI := true }

/-- The call `pinMode(pin, INPUT)`, recorded. -/
def pinModeInput (hw : Hw) (pin : Nat) : Hw :=
  { hw with inputPins := pin :: hw.inputPins }

/-- The call `attachInterrupt(num, isr, FALLING)`, recorded: it binds `isr` to the
Arduino interrupt number `num`. -/
def attachInterrupt (hw : Hw) (num : Nat) (isr : Isr) : Hw :=
  { hw with attached := (num, isr) :: hw.attached }

/-- A call on `Serial`, recorded. -/
def serialCall (hw : Hw) (c : SerialCall) : Hw :=
  { hw with serial := c :: hw.serial }

/-! ## `Wiegand.cpp` -/

/-- One `case` of the switch in `attachInterrupts` whose owner slot is
`_int0_instance` (e.g. Wiegand.cpp:18-28): claim the slot if it is `NULL`, else
fail; attach the ISR chosen by `meaning`; clear the pending flag `intf`. -/
def attachSlot0 (this : Nat) (hw : Hw) (meaning : Bool) (intf : Nat) : Hw × Bool :=
  if hw._int0_instance = none then
    let hw := { hw with _int0_instance := some this }
    let hw := if meaning then attachInterrupt hw 0 isr0_high else attachInterrupt hw 0 isr0_low
    (bitSetEIFR hw intf, true)
  else (hw, false)

/-- The same for `_int1_instance`. -/
def attachSlot1 (this : Nat) (hw : Hw) (meaning : Bool) (intf : Nat) : Hw × Bool :=
  if hw._int1_instance = none then
    let hw := { hw with _int1_instance := some this }
    let hw := if meaning then attachInterrupt hw 1 isr1_high else attachInterrupt hw 1 isr1_low
    (bitSetEIFR hw intf, true)
  else (hw, false)

/-- The same for `_int2_instance`. -/
def attachSlot2 (this : Nat) (hw : Hw) (meaning : Bool) (intf : Nat) : Hw × Bool :=
  if hw._int2_instance = none then
    let hw := { hw with _int2_instance := some this }
    let hw := if meaning then attachInterrupt hw 2 isr2_high else attachInterrupt hw 2 isr2_low
    (bitSetEIFR hw intf, true)
  else (hw, false)

/-- The same for `_int3_instance`. -/
def attachSlot3 (this : Nat) (hw : Hw) (meaning : Bool) (intf : Nat) : Hw × Bool :=
  if hw._int3_instance = none then
    let hw := { hw with _int3_instance := some this }
    let hw := if meaning then attachInterrupt hw 3 isr3_high else attachInterrupt hw 3 isr3_low
    (bitSetEIFR hw intf, true)
  else (hw, false)

/-- The same for `_int4_instance`. -/
def attachSlot4 (this : Nat) (hw : Hw) (meaning : Bool) (intf : Nat) : Hw × Bool :=
  if hw._int4_instance = none then
    let hw := { hw with _int4_instance := some this }
    let hw := if meaning then attachInterrupt hw 4 isr4_high else attachInterrupt hw 4 isr4_low
    (bitSetEIFR hw intf, true)
  else (hw, false)

/-- The same for `_int5_instance`. -/
def attachSlot5 (this : Nat) (hw : Hw) (meaning : Bool) (intf : Nat) : Hw × Bool :=
  if hw._int5_instance = none then
    let hw := { hw with _int5_instance := some this }
    let hw := if meaning then attachInterrupt hw 5 isr5_high else attachInterrupt hw 5 isr5_low
    (bitSetEIFR hw intf, true)
  else (hw, false)

/-- The method `Wiegand::attachInterrupts` (Wiegand.cpp:13-168), called on the
instance at address `this`. -/
def Wiegand.attachInterrupts (m : Mcu) (this : Nat) (hw : Hw) (pin : Nat) (meaning : Bool) :
    Hw × Bool :=
  if m.defined .ATmega328P || m.defined .ATmega168 then
    match pin with
    | 2 => attachSlot0 this hw meaning (INTF 0)
    | 3 => attachSlot1 this hw meaning (INTF 1)
    | _ => (hw, false)
  else if m.defined .ATmega1280 || m.defined .ATmega2560 then
    match pin with
    | 2 => attachSlot0 this hw meaning (INTF 4)
    | 3 => attachSlot1 this hw meaning (INTF 5)
    | 21 => attachSlot2 this hw meaning (INTF 0)
    | 20 => attachSlot3 this hw meaning (INTF 1)
    | 19 => attachSlot4 this hw meaning (INTF 2)
    | 18 => attachSlot5 this hw meaning (INTF 3)
    | _ => (hw, false)
  else if m.defined .ATmega32U4 then
    match pin with
    | 3 => attachSlot0 this hw meaning (INTF 0)
    | 2 => attachSlot1 this hw meaning (INTF 1)
    | 0 => attachSlot2 this hw meaning (INTF 2)
    | 1 => attachSlot3 this hw meaning (INTF 3)
    | 7 => attachSlot4 this hw meaning (INTF 6)
    | _ => (hw, false)
  else (hw, false)

/-- The constructor `Wiegand::Wiegand` (Wiegand.cpp:173-174): it sets the two pins
and `_status`; the other members keep whatever the storage `mem` held. -/
def Wiegand.construct (mem : Wiegand) (low_int_pin high_int_pin : Nat) : Wiegand :=
  { mem with _low_int_pin := low_int_pin % 256, _high_int_pin := high_int_pin % 256,
             _status := .Uninitialized }

/-- The loop `for (byte i = 0; i < WIEGAND_MAX_BYTES; i++) buf[i] = 0;`
(Wiegand.cpp:268-271, 289-292, 344-348). -/
def zeroBuffer (buf : List Nat) : List Nat :=
  (List.range WIEGAND_MAX_BYTES).foldl (fun b i => b.set i 0) buf

/-- The loop `for (byte i = 0; i < WIEGAND_MAX_BYTES; i++) dst[i] = src[i];`
(Wiegand.cpp:416-417). -/
def copyBuffer (dst src : List Nat) : List Nat :=
  (List.range WIEGAND_MAX_BYTES).foldl (fun b i => b.set i (src.getD i 0)) dst

/-- Wiegand.cpp:312-319: shift the whole buffer left by one bit, byte
`WIEGAND_MAX_BYTES - 1` first, and store `val` in the least significant bit of
byte 0. Every store is a store to a `uint8_t`. -/
def shiftIn (buf : List Nat) (val : Bool) : List Nat :=
  let buf := ((List.range WIEGAND_MAX_BYTES).reverse.filter (fun i => decide (i > 0))).foldl
    (fun b i =>
      let b := b.set i ((b.getD i 0 <<< 1) % 256)
      b.set i ((b.getD i 0 ||| (b.getD (i - 1) 0 >>> 7)) % 256))
    buf
  let buf := buf.set 0 ((buf.getD 0 0 <<< 1) % 256)
  buf.set 0 ((buf.getD 0 0 ||| val.toNat) % 256)

/-- Wiegand.cpp:264-272 and 285-293: the "buffer overrun" block. `m1` is the
value of its `micros()` call. -/
def overrun (hw : Hw) (w : Wiegand) (m1 : Nat) : Hw × Wiegand :=
  (serialCall hw (.print "buffer overrun"),
   { w with _status := .Idle, _first_micros := m1, _bit_count := 0,
            _rcv_buffer := zeroBuffer w._rcv_buffer })

/-- Wiegand.cpp:301-319, the end of `readBit`: the test `_bit_count++ >=
WIEGAND_MAX_BITS` compares the old count and increments it (as a `uint8_t`) in
both outcomes; then the timestamp, the status and the buffer are updated. `m2`
is the value of the `micros()` call of line 309. -/
def storeBit (hw : Hw) (w : Wiegand) (val : Bool) (m2 : Nat) : Hw × Wiegand :=
  let old := w._bit_count
  let w := { w with _bit_count := (old + 1) % 256 }
  if old ≥ WIEGAND_MAX_BITS then
    (hw, { w with _status := .Error })
  else
    (hw, { w with _bit_micros := m2, _status := .Receiving,
                  _rcv_buffer := shiftIn w._rcv_buffer val })

/-- The method `Wiegand::readBit` (Wiegand.cpp:243-325). `m0` is the value of the
`micros()` call of line 258, `m1` of the one call among lines 266, 287, 298 that
is executed, and `m2` of the call of line 309. -/
def Wiegand.readBit (hw : Hw) (w : Wiegand) (val : Bool) (m0 m1 m2 : Nat) : Hw × Wiegand :=
  if w._status = .Uninitialized then (hw, w)
  else if w._status = .Error then (hw, w)
  else
    let current_micros := m0
    if w._status = .Done then
      let r := overrun hw w m1
      storeBit r.1 r.2 val m2
    else if w._status = .Receiving ∧ current_micros < w._bit_micros then
      (hw, { w with _status := .Error })
    else if w._status = .Receiving ∧
        subUL current_micros w._bit_micros > WIEGAND_MAX_BIT_INTERVAL then
      let r := overrun hw w m1
      storeBit r.1 r.2 val m2
    else if w._status = .Idle then
      storeBit hw { w with _first_micros := m1 } val m2
    else
      storeBit hw w val m2

/-- The method `Wiegand::clear` (Wiegand.cpp:327-352); `now` is the value of its
`micros()` call. -/
def Wiegand.clear (hw : Hw) (w : Wiegand) (make_atomic : Bool) (now : Nat) : Hw × Wiegand :=
  if w._status = .Uninitialized then (hw, w)
  else
    let hw := if make_atomic then noInterrupts hw else hw
    let w := { w with _status := .Idle, status := .Idle, _first_micros := now }
    let w := { w with _bit_micros := w._first_micros, _bit_count := 0, bit_count := 0 }
    let w := { w with _rcv_buffer := zeroBuffer w._rcv_buffer,
                      rcv_buffer := zeroBuffer w.rcv_buffer }
    let hw := if make_atomic then interrupts hw else hw
    (hw, w)

/-- The loop of `print` over the public buffer, from byte `i` down to byte 0
(Wiegand.cpp:371-376), given the calls made so far. -/
def printBytes (buf : List Nat) : Nat → Hw → Hw
  | 0, hw => serialCall hw (.printHex (buf.getD 0 0))
  | i + 1, hw =>
    printBytes buf i (serialCall (serialCall hw (.printHex (buf.getD (i + 1) 0))) (.print ", "))

/-- The method `Wiegand::print` (Wiegand.cpp:354-389). It only reads the instance. -/
def Wiegand.print (hw : Hw) (w : Wiegand) : Hw × Wiegand :=
  if w._status = .Uninitialized then (hw, w)
  else
    match w.status with
    | .Done =>
      let hw := serialCall hw (.print "Wiegand status = Done, Received ")
      let hw := serialCall hw (.printDec w.bit_count)
      let hw := serialCall hw (.print " bits, in ")
      let hw := serialCall hw (.printDec w.total_micros)
      let hw := serialCall hw (.print "us rcv_buffer = \x7b")
      let hw := printBytes w.rcv_buffer (WIEGAND_MAX_BYTES - 1) hw
      (serialCall hw (.println "\x7d"), w)
    | .Idle => (serialCall hw (.println "Wiegand status = Idle"), w)
    | .Receiving => (serialCall hw (.println "Wiegand status = Receveing"), w)
    | .Error => (serialCall hw (.println "Wiegand status = Error"), w)
    | .Uninitialized => (hw, w)

/-- The method `Wiegand::finishRead` (Wiegand.cpp:391-428); `now` is the value of
its `micros()` call. -/
def Wiegand.finishRead (hw : Hw) (w : Wiegand) (now : Nat) : Hw × Wiegand × Bool :=
  if w._status = .Uninitialized then (hw, w, false)
  else
    let hw := noInterrupts hw
    let current_micros := now
    let w := if w._status = .Receiving ∧ current_micros < w._bit_micros
      then { w with _status := .Error } else w
    if w._status = .Receiving ∧ subUL current_micros w._bit_micros > WIEGAND_MAX_BIT_INTERVAL then
      let w := { w with _status := .Done, status := .Done, bit_count := w._bit_count,
                        total_micros := subUL w._bit_micros w._first_micros }
      let w := { w with rcv_buffer := copyBuffer w.rcv_buffer w._rcv_buffer }
      (interrupts hw, w, true)
    else
      let w := { w with status := w._status }
      (interrupts hw, w, false)

/-- The method `Wiegand::attachPin` (Wiegand.cpp:455-477). -/
def Wiegand.attachPin (m : Mcu) (hw : Hw) (pin : Nat) : Hw :=
  if m.defined .ATmega328P || m.defined .ATmega168 then
    match pin with
    | 2 => bitSetEIMSK (bitSetEIFR hw (INT 0)) (INT 0)
    | 3 => bitSetEIMSK (bitSetEIFR hw (INT 1)) (INT 1)
    | _ => hw
  else if m.defined .ATmega1280 || m.defined .ATmega2560 then
    match pin with
    | 2 => bitSetEIMSK (bitSetEIFR hw (INT 4)) (INT 4)
    | 3 => bitSetEIMSK (bitSetEIFR hw (INT 5)) (INT 5)
    | 21 => bitSetEIMSK (bitSetEIFR hw (INT 0)) (INT 0)
    | 20 => bitSetEIMSK (bitSetEIFR hw (INT 1)) (INT 1)
    | 19 => bitSetEIMSK (bitSetEIFR hw (INT 2)) (INT 2)
    | 18 => bitSetEIMSK (bitSetEIFR hw (INT 3)) (INT 3)
    | _ => hw
  else if m.defined .ATmega32U4 then
    match pin with
    | 3 => bitSetEIMSK (bitSetEIFR hw (INT 0)) (INT 0)
    | 2 => bitSetEIMSK (bitSetEIFR hw (INT 1)) (INT 1)
    | 0 => bitSetEIMSK (bitSetEIFR hw (INT 2)) (INT 2)
    | 1 => bitSetEIMSK (bitSetEIFR hw (INT 3)) (INT 3)
    | 7 => bitSetEIMSK (bitSetEIFR hw (INT 6)) (INT 6)
    | _ => hw
  else hw

/-- The method `Wiegand::detachPin` (Wiegand.cpp:479-501). The second
preprocessor branch is guarded by `defined(__AVR_ATmega1280__) &&
defined(__AVR_ATmega2560__)`, as in the source. -/
def Wiegand.detachPin (m : Mcu) (hw : Hw) (pin : Nat) : Hw :=
  if m.defined .ATmega328P || m.defined .ATmega168 then
    match pin with
    | 2 => bitClearEIMSK hw (INTF 0)
    | 3 => bitClearEIMSK hw (INTF 1)
    | _ => hw
  else if m.defined .ATmega1280 && m.defined .ATmega2560 then
    match pin with
    | 2 => bitClearEIMSK hw (INTF 4)
    | 3 => bitClearEIMSK hw (INTF 5)
    | 21 => bitClearEIMSK hw (INTF 0)
    | 20 => bitClearEIMSK hw (INTF 1)
    | 19 => bitClearEIMSK hw (INTF 2)
    | 18 => bitClearEIMSK hw (INTF 3)
    | _ => hw
  else if m.defined .ATmega32U4 then
    match pin with
    | 3 => bitClearEIMSK hw (INTF 0)
    | 2 => bitClearEIMSK hw (INTF 1)
    | 0 => bitClearEIMSK hw (INTF 2)
    | 1 => bitClearEIMSK hw (INTF 3)
    | 7 => bitClearEIMSK hw (INTF 6)
    | _ => hw
  else hw

/-- The method `Wiegand::suspend` (Wiegand.cpp:430-440). -/
def Wiegand.suspend (m : Mcu) (hw : Hw) (w : Wiegand) : Hw × Wiegand :=
  if w._status = .Uninitialized then (hw, w)
  else
    let hw := Wiegand.detachPin m hw w._low_int_pin
    let hw := Wiegand.detachPin m hw w._high_int_pin
    (hw, w)

/-- The method `Wiegand::resume` (Wiegand.cpp:442-452). -/
def Wiegand.resume (m : Mcu) (hw : Hw) (w : Wiegand) : Hw × Wiegand :=
  if w._status = .Uninitialized then (hw, w)
  else
    let hw := Wiegand.attachPin m hw w._low_int_pin
    let hw := Wiegand.attachPin m hw w._high_int_pin
    (hw, w)

/-- The method `Wiegand::begin` (Wiegand.cpp:178-218), called on the instance at
address `this`; `now` is the value of the `micros()` call made by `clear(false)`.
The two failure returns of lines 200 and 205 come before `interrupts()`. -/
def Wiegand.begin (m : Mcu) (this : Nat) (hw : Hw) (w : Wiegand) (now : Nat) :
    Hw × Wiegand × Bool :=
  if w._status ≠ .Uninitialized then (hw, w, false)
  else
    let hw := noInterrupts hw
    let hw := pinModeInput hw w._low_int_pin
    let hw := pinModeInput hw w._high_int_pin
    let r0 := Wiegand.attachInterrupts m this hw w._low_int_pin false
    if !r0.2 then (r0.1, { w with _status := .Error }, false)
    else
      let r1 := Wiegand.attachInterrupts m this r0.1 w._high_int_pin true
      if !r1.2 then (r1.1, { w with _status := .Error }, false)
      else
        let w := { w with _status := .Idle }
        let c := Wiegand.clear r1.1 w false now
        (interrupts c.1, c.2, true)

/-! ## Sequences of calls -/

/-- One call on an instance, with the values its `micros()` calls return. -/
inductive Call where
  | readBit (val : Bool) (m0 m1 m2 : Nat)
  | finishRead (now : Nat)
  | clear (make_atomic : Bool) (now : Nat)
  | suspend
  | resume
  | print
  | begin (now : Nat)
deriving DecidableEq, Repr

/-- Whether the call is `clear`. -/
def Call.isClear : Call → Bool
  | .clear _ _ => true
  | _ => false

/-- Whether the call is an edge notification (`readBit`). -/
def Call.isReadBit : Call → Bool
  | .readBit _ _ _ _ => true
  | _ => false

/-- Execute one call on the instance at address `this`; the third component is
the value returned by the call when it returns a `bool`. -/
def exec (m : Mcu) (this : Nat) (hw : Hw) (w : Wiegand) : Call → Hw × Wiegand × Option Bool
  | .readBit val m0 m1 m2 => let r := Wiegand.readBit hw w val m0 m1 m2; (r.1, r.2, none)
  | .finishRead now => let r := Wiegand.finishRead hw w now; (r.1, r.2.1, some r.2.2)
  | .clear make_atomic now => let r := Wiegand.clear hw w make_atomic now; (r.1, r.2, none)
  | .suspend => let r := Wiegand.suspend m hw w; (r.1, r.2, none)
  | .resume => let r := Wiegand.resume m hw w; (r.1, r.2, none)
  | .print => let r := Wiegand.print hw w; (r.1, r.2, none)
  | .begin now => let r := Wiegand.begin m this hw w now; (r.1, r.2.1, some r.2.2)

/-- Execute a sequence of calls; the third component lists, in call order, the
`finishRead` results. -/
def run (m : Mcu) (this : Nat) (hw : Hw) (w : Wiegand) : List Call → Hw × Wiegand × List Bool
  | [] => (hw, w, [])
  | c :: cs =>
    let r := exec m this hw w c
    let rest := run m this r.1 r.2.1 cs
    match c with
    | .finishRead _ => (rest.1, rest.2.1, (r.2.2.getD false) :: rest.2.2)
    | _ => rest

/-- Deliver a sequence of edge notifications, each given by its bit value and
the one clock value that all `micros()` calls of that `readBit` return. -/
def feed (hw : Hw) (w : Wiegand) : List (Bool × Nat) → Hw × Wiegand
  | [] => (hw, w)
  | e :: es => let r := Wiegand.readBit hw w e.1 e.2 e.2 e.2; feed r.1 r.2 es

/-- The buffer read as a little-endian integer: byte 0 is least significant. -/
def leValue : List Nat → Nat
  | [] => 0
  | b :: bs => b + 256 * leValue bs

/-- Timing inside a frame: the next edge comes at a clock value that is not
smaller and at most `WIEGAND_MAX_BIT_INTERVAL` later. -/
def Paced (a b : Nat) : Prop :=
  a ≤ b ∧ b - a ≤ WIEGAND_MAX_BIT_INTERVAL

instance (a b : Nat) : Decidable (Paced a b) := by
  unfold Paced; exact inferInstance

/-- The buffer is an array of `WIEGAND_MAX_BYTES` values of type `uint8_t`. -/
def Bytes (buf : List Nat) : Prop :=
  buf.length = WIEGAND_MAX_BYTES ∧ ∀ b ∈ buf, b < 256

/-- The bits of a frame in delivery order read as a binary number, first bit
most significant, on top of an earlier value `acc`. -/
def pushBits (acc : Nat) (bits : List Bool) : Nat :=
  bits.foldl (fun a b => 2 * a + b.toNat) acc

/-- The index `n` of the owner pointer `_intN_instance` that the switch of
`attachInterrupts` selects for `pin` on the target board (the table of
Wiegand.cpp:5-8 and the `case` labels of lines 17-163); `none` when the switch
has no `case` for the pin. -/
def slotOf (m : Mcu) (pin : Nat) : Option Nat :=
  match m with
  | .ATmega328P | .ATmega168 =>
    match pin with
    | 2 => some 0
    | 3 => some 1
    | _ => none
  | .ATmega1280 | .ATmega2560 =>
    match pin with
    | 2 => some 0
    | 3 => some 1
    | 21 => some 2
    | 20 => some 3
    | 19 => some 4
    | 18 => some 5
    | _ => none
  | .ATmega32U4 =>
    match pin with
    | 3 => some 0
    | 2 => some 1
    | 0 => some 2
    | 1 => some 3
    | 7 => some 4
    | _ => none
  | .other => none

/-- The owner pointer `_intN_instance` with index `n`. -/
def Hw.owner (hw : Hw) : Nat → Option Nat
  | 0 => hw._int0_instance
  | 1 => hw._int1_instance
  | 2 => hw._int2_instance
  | 3 => hw._int3_instance
  | 4 => hw._int4_instance
  | 5 => hw._int5_instance
  | _ => none

/-- What holds of the private bit count in every state of an initialized
instance: it is at most `WIEGAND_MAX_BITS + 1`, and at most `WIEGAND_MAX_BITS`
unless the status is Error. -/
def CountInv (w : Wiegand) : Prop :=
  w._status ≠ .Uninitialized ∧ w._bit_count ≤ WIEGAND_MAX_BITS + 1 ∧
  (w._status ≠ .Error → w._bit_count ≤ WIEGAND_MAX_BITS)

/-- What holds of the buffers in every state of an initialized instance: both
are arrays of bytes holding a value below `2 ^ WIEGAND_MAX_BITS`; unless the
status is Error the private value is below `2 ^ _bit_count` with `_bit_count`
at most `WIEGAND_MAX_BITS`; in Receiving and Done at least one bit is counted. -/
def FrameInv (w : Wiegand) : Prop :=
  w._status ≠ .Uninitialized ∧ Bytes w._rcv_buffer ∧ Bytes w.rcv_buffer ∧
  leValue w._rcv_buffer < 2 ^ WIEGAND_MAX_BITS ∧ leValue w.rcv_buffer < 2 ^ WIEGAND_MAX_BITS ∧
  (w._status ≠ .Error →
    w._bit_count ≤ WIEGAND_MAX_BITS ∧ leValue w._rcv_buffer < 2 ^ w._bit_count) ∧
  (w._status = .Receiving ∨ w._status = .Done → 1 ≤ w._bit_count)

/-! ## Buffer lemmas -/

theorem max_bytes_eq : WIEGAND_MAX_BYTES = 5 := by decide

theorem length_five {l : List Nat} (h : l.length = WIEGAND_MAX_BYTES) :
    ∃ a b c d e, l = [a, b, c, d, e] := by
  rw [max_bytes_eq] at h
  match l, h with
  | [a, b, c, d, e], _ => exact ⟨a, b, c, d, e, rfl⟩

theorem zeroBuffer_eq {buf : List Nat} (h : buf.length = WIEGAND_MAX_BYTES) :
    zeroBuffer buf = List.replicate WIEGAND_MAX_BYTES 0 := by
  obtain ⟨a, b, c, d, e, rfl⟩ := length_five h
  rfl

theorem copyBuffer_eq {dst src : List Nat} (hd : dst.length = WIEGAND_MAX_BYTES)
    (hs : src.length = WIEGAND_MAX_BYTES) : copyBuffer dst src = src := by
  obtain ⟨a, b, c, d, e, rfl⟩ := length_five hd
  obtain ⟨a', b', c', d', e', rfl⟩ := length_five hs
  rfl

theorem zeroBuffer_length (buf : List Nat) : (zeroBuffer buf).length = buf.length := by
  unfold zeroBuffer
  generalize List.range WIEGAND_MAX_BYTES = is
  induction is generalizing buf with
  | nil => rfl
  | cons i is ih => rw [List.foldl_cons, ih, List.length_set]

theorem copyBuffer_length (dst src : List Nat) : (copyBuffer dst src).length = dst.length := by
  unfold copyBuffer
  generalize List.range WIEGAND_MAX_BYTES = is
  induction is generalizing dst with
  | nil => rfl
  | cons i is ih => rw [List.foldl_cons, ih, List.length_set]

theorem lor_carry (x c : Nat) (hc : c < 2) : ((x <<< 1) % 256 ||| c) % 256 = (x * 2) % 256 + c := by
  have h1 : (x <<< 1) % 256 = 2 ^ 1 * (x % 128) := by
    rw [Nat.shiftLeft_eq]; omega
  rw [h1, ← Nat.mul_add_lt_is_or (by omega : c < 2 ^ 1)]
  omega

theorem shiftIn_five (a b c d e : Nat) (val : Bool) :
    shiftIn [a, b, c, d, e] val =
      [((a <<< 1) % 256 ||| val.toNat) % 256, ((b <<< 1) % 256 ||| a >>> 7) % 256,
       ((c <<< 1) % 256 ||| b >>> 7) % 256, ((d <<< 1) % 256 ||| c >>> 7) % 256,
       ((e <<< 1) % 256 ||| d >>> 7) % 256] := rfl

theorem shiftIn_bytes {buf : List Nat} (val : Bool) (h : Bytes buf) :
    Bytes (shiftIn buf val) ∧
      leValue (shiftIn buf val) = (2 * leValue buf + val.toNat) % 1099511627776 := by
  obtain ⟨hl, hb⟩ := h
  obtain ⟨a, b, c, d, e, rfl⟩ := length_five hl
  have ha : a < 256 := hb a (by simp)
  have hb' : b < 256 := hb b (by simp)
  have hc : c < 256 := hb c (by simp)
  have hd : d < 256 := hb d (by simp)
  have he : e < 256 := hb e (by simp)
  have hv : val.toNat < 2 := by cases val <;> simp
  have sa : a >>> 7 = a / 128 := by rw [Nat.shiftRight_eq_div_pow]
  have sb : b >>> 7 = b / 128 := by rw [Nat.shiftRight_eq_div_pow]
  have sc : c >>> 7 = c / 128 := by rw [Nat.shiftRight_eq_div_pow]
  have sd : d >>> 7 = d / 128 := by rw [Nat.shiftRight_eq_div_pow]
  rw [shiftIn_five, sa, sb, sc, sd, lor_carry a val.toNat hv,
    lor_carry b (a / 128) (by omega), lor_carry c (b / 128) (by omega),
    lor_carry d (c / 128) (by omega), lor_carry e (d / 128) (by omega)]
  refine ⟨⟨by simp [max_bytes_eq], ?_⟩, ?_⟩
  · intro x hx
    simp only [List.mem_cons, List.mem_singleton, List.not_mem_nil, or_false] at hx
    omega
  · simp only [leValue]
    omega

theorem leValue_zero : leValue (List.replicate WIEGAND_MAX_BYTES 0) = 0 := by decide

theorem bytes_zero : Bytes (List.replicate WIEGAND_MAX_BYTES 0) := by
  refine ⟨by simp, ?_⟩
  intro b hb
  rw [List.mem_replicate] at hb
  omega

/-! ## Lemmas on single calls -/

theorem subUL_of_le {a b : Nat} (h : b ≤ a) (ha : a < 4294967296) : subUL a b = a - b := by
  unfold subUL; omega

theorem storeBit_ok (hw : Hw) (w : Wiegand) (val : Bool) (m2 : Nat)
    (hc : w._bit_count < WIEGAND_MAX_BITS) :
    storeBit hw w val m2 =
      (hw, { w with _bit_count := w._bit_count + 1, _bit_micros := m2, _status := .Receiving,
                    _rcv_buffer := shiftIn w._rcv_buffer val }) := by
  have h36 : WIEGAND_MAX_BITS = 36 := rfl
  have hmod : (w._bit_count + 1) % 256 = w._bit_count + 1 := by omega
  unfold storeBit
  simp only [ge_iff_le, Nat.not_le.mpr hc, if_false, hmod]

theorem storeBit_full (hw : Hw) (w : Wiegand) (val : Bool) (m2 : Nat)
    (hc : WIEGAND_MAX_BITS ≤ w._bit_count) :
    storeBit hw w val m2 =
      (hw, { w with _bit_count := (w._bit_count + 1) % 256, _status := .Error }) := by
  unfold storeBit
  simp only [ge_iff_le, hc, if_true]

theorem storeBit_public (hw : Hw) (w : Wiegand) (val : Bool) (m2 : Nat) :
    (storeBit hw w val m2).2.status = w.status ∧
    (storeBit hw w val m2).2.bit_count = w.bit_count ∧
    (storeBit hw w val m2).2.rcv_buffer = w.rcv_buffer ∧
    (storeBit hw w val m2).2.total_micros = w.total_micros := by
  by_cases hc : w._bit_count < WIEGAND_MAX_BITS
  · rw [storeBit_ok hw w val m2 hc]; simp
  · rw [storeBit_full hw w val m2 (Nat.not_lt.mp hc)]; simp

theorem readBit_idle (hw : Hw) (w : Wiegand) (val : Bool) (m0 m1 m2 : Nat)
    (hs : w._status = .Idle) :
    Wiegand.readBit hw w val m0 m1 m2 = storeBit hw { w with _first_micros := m1 } val m2 := by
  unfold Wiegand.readBit
  simp [hs]

theorem readBit_first (hw : Hw) (w : Wiegand) (val : Bool) (m0 m1 m2 : Nat)
    (hs : w._status = .Idle) (hc : w._bit_count < WIEGAND_MAX_BITS) :
    Wiegand.readBit hw w val m0 m1 m2 =
      (hw, { w with _first_micros := m1, _bit_count := w._bit_count + 1, _bit_micros := m2,
                    _status := .Receiving, _rcv_buffer := shiftIn w._rcv_buffer val }) := by
  rw [readBit_idle hw w val m0 m1 m2 hs]
  exact storeBit_ok hw { w with _first_micros := m1 } val m2 hc

theorem readBit_idle_full (hw : Hw) (w : Wiegand) (val : Bool) (m0 m1 m2 : Nat)
    (hs : w._status = .Idle) (hc : WIEGAND_MAX_BITS ≤ w._bit_count) :
    Wiegand.readBit hw w val m0 m1 m2 =
      (hw, { w with _first_micros := m1, _bit_count := (w._bit_count + 1) % 256,
                    _status := .Error }) := by
  rw [readBit_idle hw w val m0 m1 m2 hs]
  exact storeBit_full hw { w with _first_micros := m1 } val m2 hc

theorem readBit_paced (hw : Hw) (w : Wiegand) (val : Bool) (t m1 m2 : Nat)
    (hs : w._status = .Receiving) (hp : Paced w._bit_micros t) (ht : t < 4294967296) :
    Wiegand.readBit hw w val t m1 m2 = storeBit hw w val m2 := by
  obtain ⟨h1, h2⟩ := hp
  have hsub : ¬ subUL t w._bit_micros > WIEGAND_MAX_BIT_INTERVAL := by
    rw [subUL_of_le h1 ht]; omega
  unfold Wiegand.readBit
  simp [hs, Nat.not_lt.mpr h1, hsub]

theorem readBit_error (hw : Hw) (w : Wiegand) (val : Bool) (m0 m1 m2 : Nat)
    (hs : w._status = .Error) : Wiegand.readBit hw w val m0 m1 m2 = (hw, w) := by
  unfold Wiegand.readBit
  simp [hs]

theorem readBit_public (hw : Hw) (w : Wiegand) (val : Bool) (m0 m1 m2 : Nat) :
    (Wiegand.readBit hw w val m0 m1 m2).2.status = w.status ∧
    (Wiegand.readBit hw w val m0 m1 m2).2.bit_count = w.bit_count ∧
    (Wiegand.readBit hw w val m0 m1 m2).2.rcv_buffer = w.rcv_buffer ∧
    (Wiegand.readBit hw w val m0 m1 m2).2.total_micros = w.total_micros := by
  unfold Wiegand.readBit overrun
  dsimp only
  split_ifs <;> first | simp | exact storeBit_public _ _ _ _

theorem finishRead_publish (hw : Hw) (w : Wiegand) (now : Nat)
    (hs : w._status = .Receiving) (hle : w._bit_micros ≤ now)
    (hgap : now - w._bit_micros > WIEGAND_MAX_BIT_INTERVAL) (hnow : now < 4294967296) :
    Wiegand.finishRead hw w now =
      (interrupts (noInterrupts hw),
       { w with _status := .Done, status := .Done, bit_count := w._bit_count,
                total_micros := subUL w._bit_micros w._first_micros,
                rcv_buffer := copyBuffer w.rcv_buffer w._rcv_buffer }, true) := by
  have hsub : subUL now w._bit_micros > WIEGAND_MAX_BIT_INTERVAL := by
    rw [subUL_of_le hle hnow]; exact hgap
  unfold Wiegand.finishRead
  simp [hs, Nat.not_lt.mpr hle, hsub]

theorem finishRead_result (hw : Hw) (w : Wiegand) (now : Nat) (hnow : now < 4294967296) :
    (Wiegand.finishRead hw w now).2.2 = true ↔
      (w._status = .Receiving ∧ w._bit_micros ≤ now ∧
        now - w._bit_micros > WIEGAND_MAX_BIT_INTERVAL) := by
  constructor
  · intro h
    unfold Wiegand.finishRead at h
    by_cases hu : w._status = .Uninitialized
    · simp [hu] at h
    by_cases hr : w._status = .Receiving
    · by_cases hlt : now < w._bit_micros
      · simp [hr, hlt] at h
      · have hle : w._bit_micros ≤ now := Nat.not_lt.mp hlt
        refine ⟨hr, hle, ?_⟩
        simp only [hr, hlt, and_false, if_false] at h
        by_cases hg : subUL now w._bit_micros > WIEGAND_MAX_BIT_INTERVAL
        · rw [subUL_of_le hle hnow] at hg; exact hg
        · simp [hg] at h
    · simp [hu, hr] at h
  · rintro ⟨hs, hle, hgap⟩
    rw [finishRead_publish hw w now hs hle hgap hnow]

/-! ## Lemmas on sequences of edges -/

theorem feed_public (es : List (Bool × Nat)) : ∀ (hw : Hw) (w : Wiegand),
    (feed hw w es).2.status = w.status ∧ (feed hw w es).2.bit_count = w.bit_count ∧
    (feed hw w es).2.rcv_buffer = w.rcv_buffer ∧
    (feed hw w es).2.total_micros = w.total_micros := by
  induction es with
  | nil => intro hw w; simp [feed]
  | cons e es ih =>
    intro hw w
    obtain ⟨h1, h2, h3, h4⟩ := readBit_public hw w e.1 e.2 e.2 e.2
    obtain ⟨i1, i2, i3, i4⟩ := ih (Wiegand.readBit hw w e.1 e.2 e.2 e.2).1
      (Wiegand.readBit hw w e.1 e.2 e.2 e.2).2
    simp only [feed]
    exact ⟨i1.trans h1, i2.trans h2, i3.trans h3, i4.trans h4⟩

theorem feed_error (es : List (Bool × Nat)) : ∀ (hw : Hw) (w : Wiegand),
    w._status = .Error → feed hw w es = (hw, w) := by
  induction es with
  | nil => intro hw w _; rfl
  | cons e es ih =>
    intro hw w hs
    simp only [feed, readBit_error hw w e.1 e.2 e.2 e.2 hs]
    exact ih hw w hs

theorem pushBits_lt (bits : List Bool) : ∀ (acc c : Nat), acc < 2 ^ c →
    pushBits acc bits < 2 ^ (c + bits.length) := by
  induction bits with
  | nil => intro acc c h; simpa [pushBits] using h
  | cons b bs ih =>
    intro acc c h
    have hb : b.toNat < 2 := by cases b <;> simp
    have h2 : 2 * acc + b.toNat < 2 ^ (c + 1) := by rw [pow_succ]; omega
    have := ih (2 * acc + b.toNat) (c + 1) h2
    simp only [pushBits, List.foldl_cons, List.length_cons] at this ⊢
    rw [show c + (bs.length + 1) = c + 1 + bs.length by omega]
    exact this

theorem feed_capturing (es : List (Bool × Nat)) : ∀ (hw : Hw) (w : Wiegand),
    w._status = .Receiving →
    w._bit_count + es.length ≤ WIEGAND_MAX_BITS →
    List.Chain Paced w._bit_micros (es.map Prod.snd) →
    (∀ e ∈ es, e.2 < 4294967296) →
    (feed hw w es).2._status = .Receiving ∧
    (feed hw w es).2._bit_count = w._bit_count + es.length ∧
    (feed hw w es).2._first_micros = w._first_micros ∧
    (feed hw w es).2._bit_micros = (es.map Prod.snd).getLastD w._bit_micros ∧
    (Bytes w._rcv_buffer → leValue w._rcv_buffer < 2 ^ w._bit_count →
      Bytes (feed hw w es).2._rcv_buffer ∧
      leValue (feed hw w es).2._rcv_buffer = pushBits (leValue w._rcv_buffer) (es.map Prod.fst)) := by
  induction es with
  | nil => intro hw w hs _ _ _; exact ⟨hs, rfl, rfl, rfl, fun hb _ => ⟨hb, rfl⟩⟩
  | cons e es ih =>
    intro hw w hs hc hp hr
    have h36 : WIEGAND_MAX_BITS = 36 := rfl
    simp only [List.map_cons, List.chain_cons, List.length_cons] at hp hc
    have hlt : w._bit_count < WIEGAND_MAX_BITS := by omega
    have he : e.2 < 4294967296 := hr e (by simp)
    have hstep : Wiegand.readBit hw w e.1 e.2 e.2 e.2 = _ :=
      (readBit_paced hw w e.1 e.2 e.2 e.2 hs hp.1 he).trans (storeBit_ok hw w e.1 e.2 hlt)
    have hrec := ih hw
      { w with _bit_count := w._bit_count + 1, _bit_micros := e.2, _status := .Receiving,
               _rcv_buffer := shiftIn w._rcv_buffer e.1 }
      rfl (by simp only; omega) hp.2 (fun x hx => hr x (List.mem_cons_of_mem _ hx))
    simp only [feed, hstep, List.map_cons, List.getLastD_cons, List.length_cons]
    obtain ⟨r1, r2, r3, r4, r5⟩ := hrec
    dsimp only at r2 r3 r4 r5
    refine ⟨r1, by rw [r2]; omega, r3, r4, ?_⟩
    · intro hb hv
      obtain ⟨sb, sv⟩ := shiftIn_bytes e.1 hb
      have hbit : e.1.toNat < 2 := by cases e.1 <;> simp
      have hpow : 2 ^ w._bit_count ≤ 2 ^ 35 := Nat.pow_le_pow_right (by omega) (by omega)
      have hsmall : 2 * leValue w._rcv_buffer + e.1.toNat < 2 ^ (w._bit_count + 1) := by
        rw [pow_succ]; omega
      have hval : leValue (shiftIn w._rcv_buffer e.1) = 2 * leValue w._rcv_buffer + e.1.toNat := by
        rw [sv]; apply Nat.mod_eq_of_lt
        have : 2 * leValue w._rcv_buffer + e.1.toNat < 2 * 2 ^ 35 := by omega
        omega
      obtain ⟨q1, q2⟩ := r5 sb (by rw [hval]; exact hsmall)
      refine ⟨q1, ?_⟩
      rw [q2]
      simp only [pushBits, List.foldl_cons, hval]

theorem feed_times (es : List (Bool × Nat)) : ∀ (hw : Hw) (w : Wiegand),
    w._status = .Receiving →
    List.Chain Paced w._bit_micros (es.map Prod.snd) →
    (∀ e ∈ es, e.2 < 4294967296) →
    (feed hw w es).2._status = .Error ∨
      ((feed hw w es).2._status = .Receiving ∧
       (feed hw w es).2._first_micros = w._first_micros ∧
       (feed hw w es).2._bit_micros = (es.map Prod.snd).getLastD w._bit_micros) := by
  induction es with
  | nil => intro hw w hs _ _; right; simp [feed, hs]
  | cons e es ih =>
    intro hw w hs hp hr
    simp only [List.map_cons, List.chain_cons] at hp
    have he : e.2 < 4294967296 := hr e (by simp)
    have hstep := readBit_paced hw w e.1 e.2 e.2 e.2 hs hp.1 he
    simp only [feed, hstep, List.map_cons, List.getLastD_cons]
    by_cases hlt : w._bit_count < WIEGAND_MAX_BITS
    · rw [storeBit_ok hw w e.1 e.2 hlt]
      exact ih hw _ rfl hp.2 (fun x hx => hr x (List.mem_cons_of_mem _ hx))
    · rw [storeBit_full hw w e.1 e.2 (Nat.not_lt.mp hlt)]
      left
      rw [feed_error es hw _ rfl]

theorem pushBits_snoc (acc : Nat) (bits : List Bool) (b : Bool) :
    pushBits acc (bits ++ [b]) = 2 * pushBits acc bits + b.toNat := by
  simp [pushBits, List.foldl_append]

theorem pushBits_eq_sum (bits : List Bool) :
    pushBits 0 bits =
      ∑ i ∈ Finset.range bits.length, (bits.getD i false).toNat * 2 ^ (bits.length - 1 - i) := by
  induction bits using List.reverseRecOn with
  | nil => simp [pushBits]
  | append_singleton bs b ih =>
    rw [pushBits_snoc, ih, List.length_append, List.length_singleton, Finset.sum_range_succ,
      Finset.mul_sum]
    congr 1
    · apply Finset.sum_congr rfl
      intro i hi
      have hi' : i < bs.length := Finset.mem_range.mp hi
      have hget : (bs ++ [b]).getD i false = bs.getD i false := by
        simp [List.getD_eq_getElem?_getD, List.getElem?_append_left hi']
      rw [hget, show bs.length + 1 - 1 - i = (bs.length - 1 - i) + 1 by omega, pow_succ]
      ring
    · have hget : (bs ++ [b]).getD bs.length false = b := by
        simp [List.getD_eq_getElem?_getD]
      rw [hget]; simp

/-! ## Lemmas on `clear` and `finishRead` -/

theorem clear_eq (hw : Hw) (w : Wiegand) (make_atomic : Bool) (now : Nat)
    (hs : w._status ≠ .Uninitialized) (hwf : w.WellFormed) :
    (Wiegand.clear hw w make_atomic now).2 =
      { w with _status := .Idle, status := .Idle, _first_micros := now, _bit_micros := now,
               _bit_count := 0, bit_count := 0,
               _rcv_buffer := List.replicate WIEGAND_MAX_BYTES 0,
               rcv_buffer := List.replicate WIEGAND_MAX_BYTES 0 } := by
  unfold Wiegand.clear
  simp only [hs, if_false]
  rw [zeroBuffer_eq hwf.1, zeroBuffer_eq hwf.2]

theorem clear_fields (hw : Hw) (w : Wiegand) (make_atomic : Bool) (now : Nat)
    (hs : w._status ≠ .Uninitialized) (hwf : w.WellFormed) :
    (Wiegand.clear hw w make_atomic now).2._status = .Idle ∧
    (Wiegand.clear hw w make_atomic now).2.status = .Idle ∧
    (Wiegand.clear hw w make_atomic now).2._bit_count = 0 ∧
    (Wiegand.clear hw w make_atomic now).2.bit_count = 0 ∧
    (Wiegand.clear hw w make_atomic now).2._rcv_buffer = List.replicate WIEGAND_MAX_BYTES 0 ∧
    (Wiegand.clear hw w make_atomic now).2.rcv_buffer = List.replicate WIEGAND_MAX_BYTES 0 ∧
    (Wiegand.clear hw w make_atomic now).2._first_micros = now ∧
    (Wiegand.clear hw w make_atomic now).2._bit_micros = now := by
  rw [clear_eq hw w make_atomic now hs hwf]
  exact ⟨rfl, rfl, rfl, rfl, rfl, rfl, rfl, rfl⟩

theorem finishRead_true (hw : Hw) (w : Wiegand) (now : Nat)
    (h : (Wiegand.finishRead hw w now).2.2 = true) :
    w._status = .Receiving ∧
    (Wiegand.finishRead hw w now).2.1 =
      { w with _status := .Done, status := .Done, bit_count := w._bit_count,
               total_micros := subUL w._bit_micros w._first_micros,
               rcv_buffer := copyBuffer w.rcv_buffer w._rcv_buffer } := by
  unfold Wiegand.finishRead at h ⊢
  by_cases hu : w._status = .Uninitialized
  · simp [hu] at h
  by_cases hr : w._status = .Receiving
  · by_cases hlt : now < w._bit_micros
    · simp [hr, hlt] at h
    · by_cases hg : subUL now w._bit_micros > WIEGAND_MAX_BIT_INTERVAL
      · simp [hr, hlt, hg]
      · simp [hr, hlt, hg] at h
  · simp [hu, hr] at h

theorem finishRead_settled (hw : Hw) (w : Wiegand) (now : Nat)
    (hs : w._status = .Done ∨ w._status = .Error ∨ w._status = .Idle) :
    Wiegand.finishRead hw w now =
      (interrupts (noInterrupts hw), { w with status := w._status }, false) := by
  unfold Wiegand.finishRead
  rcases hs with hs | hs | hs <;> simp [hs]

theorem chain_paced_le (l : List Nat) : ∀ a : Nat, List.Chain Paced a l → a ≤ l.getLastD a := by
  induction l with
  | nil => intro a _; simp
  | cons b l ih =>
    intro a h
    rw [List.chain_cons] at h
    rw [List.getLastD_cons]
    exact le_trans h.1.1 (ih b h.2)

theorem getLastD_lt (l : List Nat) (bound : Nat) : ∀ a : Nat, a < bound → (∀ x ∈ l, x < bound) →
    l.getLastD a < bound := by
  induction l with
  | nil => intro a h _; simpa using h
  | cons b l ih =>
    intro a _ hl
    rw [List.getLastD_cons]
    exact ih b (hl b (by simp)) (fun x hx => hl x (List.mem_cons_of_mem _ hx))

/-! ## Sample inputs -/

/-- A board state at power-up: no slot claimed, interrupts enabled. -/
def sampleHw : Hw :=
  { _int0_instance := none, _int1_instance := none, _int2_instance := none,
    _int3_instance := none, _int4_instance := none, _int5_instance := none,
    EIMSK := 0, EIFR := 0, sregI := true, inputPins := [], attached := [], serial := [] }

/-- An initialized instance on pins 2 and 3 holding leftovers of earlier use. -/
def sampleDirty : Wiegand :=
  { _low_int_pin := 2, _high_int_pin := 3, _first_micros := 7, _bit_micros := 9,
    _rcv_buffer := [1, 2, 3, 4, 5], _bit_count := 3, _status := .Done, status := .Done,
    bit_count := 4, rcv_buffer := [9, 9, 9, 9, 9], total_micros := 77 }

/-- An instance in the middle of a frame: two bits received, the last at 2000. -/
def sampleReceiving : Wiegand :=
  { _low_int_pin := 2, _high_int_pin := 3, _first_micros := 1000, _bit_micros := 2000,
    _rcv_buffer := [2, 0, 0, 0, 0], _bit_count := 2, _status := .Receiving, status := .Idle,
    bit_count := 0, rcv_buffer := [0, 0, 0, 0, 0], total_micros := 0 }

/-! ## C1 - C5 -/

/-- C1. End-to-end frame capture: from the state left by `clear()` on an
initialized instance, a non-empty sequence of at most `WIEGAND_MAX_BITS` edges,
each reading one clock value, delivered at non-decreasing clock values with gaps
of at most 5000 us, followed by `finishRead()` at a clock value more than 5000 us
after the last edge (all clock values in the range of `unsigned long`): the call
returns true, public status is Done, public `bit_count` is the number of edges
and `rcv_buffer` read little-endian is the sum of `b_i * 2^(n-1-i)` over the
bits `b_0 .. b_(n-1)` in delivery order. -/
theorem frame_capture (hw0 : Hw) (w0 : Wiegand) (make_atomic : Bool) (t0 : Nat)
    (edges : List (Bool × Nat)) (tpoll : Nat)
    (hinit : w0._status ≠ .Uninitialized) (hwf : w0.WellFormed)
    (hne : edges ≠ []) (hlen : edges.length ≤ WIEGAND_MAX_BITS)
    (hpace : List.Chain' Paced (edges.map Prod.snd))
    (hrange : ∀ e ∈ edges, e.2 < 4294967296) (hpoll : tpoll < 4294967296)
    (hgap : (edges.map Prod.snd).getLastD 0 + WIEGAND_MAX_BIT_INTERVAL < tpoll) :
    let c := Wiegand.clear hw0 w0 make_atomic t0
    let f := feed c.1 c.2 edges
    let r := Wiegand.finishRead f.1 f.2 tpoll
    r.2.2 = true ∧ r.2.1.status = .Done ∧ r.2.1.bit_count = edges.length ∧
    leValue r.2.1.rcv_buffer =
      ∑ i ∈ Finset.range edges.length,
        ((edges.map Prod.fst).getD i false).toNat * 2 ^ (edges.length - 1 - i) := by
  intro c f r
  obtain ⟨e, es, rfl⟩ := List.exists_cons_of_ne_nil hne
  have h36 : WIEGAND_MAX_BITS = 36 := rfl
  have hWI : WIEGAND_MAX_BIT_INTERVAL = 5000 := rfl
  obtain ⟨c1, _, c3, _, c5, c6, _, _⟩ :
      c.2._status = .Idle ∧ c.2.status = .Idle ∧ c.2._bit_count = 0 ∧ c.2.bit_count = 0 ∧
      c.2._rcv_buffer = List.replicate WIEGAND_MAX_BYTES 0 ∧
      c.2.rcv_buffer = List.replicate WIEGAND_MAX_BYTES 0 ∧
      c.2._first_micros = t0 ∧ c.2._bit_micros = t0 :=
    clear_fields hw0 w0 make_atomic t0 hinit hwf
  simp only [List.map_cons, List.length_cons, List.getLastD_cons] at hlen hpace hgap
  -- the first edge starts the frame
  have hf : f = feed c.1
      { c.2 with _first_micros := e.2, _bit_count := c.2._bit_count + 1, _bit_micros := e.2,
                 _status := .Receiving, _rcv_buffer := shiftIn c.2._rcv_buffer e.1 } es := by
    show feed c.1 c.2 (e :: es) = _
    simp only [feed]
    rw [readBit_first c.1 c.2 e.1 e.2 e.2 e.2 c1 (by rw [c3]; omega)]
  have hbit : e.1.toNat < 2 := by cases e.1 <;> simp
  have hzero : Bytes c.2._rcv_buffer ∧ leValue c.2._rcv_buffer = 0 := by
    rw [c5]; exact ⟨bytes_zero, leValue_zero⟩
  obtain ⟨sb, sv⟩ := shiftIn_bytes e.1 hzero.1
  rw [hzero.2] at sv
  have sv' : leValue (shiftIn c.2._rcv_buffer e.1) = e.1.toNat := by
    rw [sv]; omega
  obtain ⟨r1, r2, _, r4, r5⟩ := feed_capturing es c.1
    { c.2 with _first_micros := e.2, _bit_count := c.2._bit_count + 1, _bit_micros := e.2,
               _status := .Receiving, _rcv_buffer := shiftIn c.2._rcv_buffer e.1 }
    rfl (by simp only; omega) hpace (fun x hx => hrange x (List.mem_cons_of_mem _ hx))
  rw [← hf] at r1 r2 r4 r5
  dsimp only at r2 r4 r5
  obtain ⟨q1, q2⟩ := r5 sb (by rw [sv', c3]; omega)
  obtain ⟨_, _, p3, _⟩ := feed_public (e :: es) c.1 c.2
  have hlast : f.2._bit_micros < 4294967296 := by
    rw [r4]
    exact getLastD_lt _ _ _ (hrange e (by simp))
      (fun x hx => by
        obtain ⟨y, hy, rfl⟩ := List.mem_map.mp hx
        exact hrange y (List.mem_cons_of_mem _ hy))
  have hpub : r = _ := finishRead_publish f.1 f.2 tpoll r1
    (by rw [r4]; omega) (by rw [r4]; omega) hpoll
  have hplen : f.2.rcv_buffer.length = WIEGAND_MAX_BYTES := by
    show (feed c.1 c.2 (e :: es)).2.rcv_buffer.length = _
    rw [p3, c6]; simp
  rw [hpub]
  refine ⟨rfl, rfl, ?_, ?_⟩
  · show f.2._bit_count = es.length + 1
    rw [r2, c3]; omega
  · show leValue (copyBuffer f.2.rcv_buffer f.2._rcv_buffer) = _
    rw [copyBuffer_eq hplen q1.1, q2, sv']
    have := pushBits_eq_sum ((e :: es).map Prod.fst)
    rw [List.length_map] at this
    rw [← this]
    simp [pushBits]

/-- Witness of C1: two edges (bits 1, 0) at 1000 and 2000, polled at 8000. -/
theorem frame_capture_witness :
    (Wiegand.finishRead
        (feed (Wiegand.clear sampleHw sampleDirty true 50).1
          (Wiegand.clear sampleHw sampleDirty true 50).2 [(true, 1000), (false, 2000)]).1
        (feed (Wiegand.clear sampleHw sampleDirty true 50).1
          (Wiegand.clear sampleHw sampleDirty true 50).2 [(true, 1000), (false, 2000)]).2
        8000).2.1.bit_count = 2 :=
  (frame_capture sampleHw sampleDirty true 50 [(true, 1000), (false, 2000)] 8000
    (by decide) (by decide) (by decide) (by decide)
    (by simp [Paced, WIEGAND_MAX_BIT_INTERVAL]) (by decide) (by decide) (by decide)).2.2.1

/-- C2. For a clock value in the range of `unsigned long`, `finishRead()` returns
true exactly when the private status is Receiving, the clock value is not less
than the last-bit timestamp and their difference is strictly greater than
`WIEGAND_MAX_BIT_INTERVAL`; in every other case it returns false. -/
theorem finishRead_true_iff (hw : Hw) (w : Wiegand) (now : Nat) (hnow : now < 4294967296) :
    (Wiegand.finishRead hw w now).2.2 = true ↔
      (w._status = .Receiving ∧ w._bit_micros ≤ now ∧
        now - w._bit_micros > WIEGAND_MAX_BIT_INTERVAL) :=
  finishRead_result hw w now hnow

/-- Witness of C2: last bit at 2000, poll at 7001 returns true; at 7000 it does not. -/
theorem finishRead_true_iff_witness :
    (Wiegand.finishRead sampleHw sampleReceiving 7001).2.2 = true ∧
    ¬ (Wiegand.finishRead sampleHw sampleReceiving 7000).2.2 = true :=
  ⟨(finishRead_true_iff sampleHw sampleReceiving 7001 (by decide)).mpr (by decide),
   fun h => absurd ((finishRead_true_iff sampleHw sampleReceiving 7000 (by decide)).mp h)
     (by decide)⟩

/-- C3. Elapsed duration of a published frame: edges delivered from Idle, each
reading one clock value, at non-decreasing clock values at most 5000 us apart
(no wrap); whenever a later `finishRead()` publishes the frame (returns true),
at whatever clock value, public `total_micros` is the clock value of the last
edge minus the clock value of the first edge. -/
theorem frame_duration (hw : Hw) (w : Wiegand) (edges : List (Bool × Nat)) (tpoll : Nat)
    (hidle : w._status = .Idle) (hne : edges ≠ [])
    (hpace : List.Chain' Paced (edges.map Prod.snd))
    (hrange : ∀ e ∈ edges, e.2 < 4294967296)
    (hpub : (Wiegand.finishRead (feed hw w edges).1 (feed hw w edges).2 tpoll).2.2 = true) :
    (Wiegand.finishRead (feed hw w edges).1 (feed hw w edges).2 tpoll).2.1.total_micros =
      (edges.map Prod.snd).getLastD 0 - (edges.map Prod.snd).headD 0 := by
  obtain ⟨e, es, rfl⟩ := List.exists_cons_of_ne_nil hne
  obtain ⟨hrecv, heq⟩ := finishRead_true _ _ _ hpub
  rw [heq]
  simp only [List.map_cons, List.getLastD_cons, List.headD_cons] at hpace ⊢
  have he : e.2 < 4294967296 := hrange e (by simp)
  have hlast : (es.map Prod.snd).getLastD e.2 < 4294967296 :=
    getLastD_lt _ _ _ he (fun x hx => by
      obtain ⟨y, hy, rfl⟩ := List.mem_map.mp hx
      exact hrange y (List.mem_cons_of_mem _ hy))
  have hle : e.2 ≤ (es.map Prod.snd).getLastD e.2 := chain_paced_le _ _ hpace
  have hfeed : feed hw w (e :: es) = feed (Wiegand.readBit hw w e.1 e.2 e.2 e.2).1
      (Wiegand.readBit hw w e.1 e.2 e.2 e.2).2 es := rfl
  rw [hfeed] at hrecv ⊢
  by_cases hc : w._bit_count < WIEGAND_MAX_BITS
  · rw [readBit_first hw w e.1 e.2 e.2 e.2 hidle hc] at hrecv ⊢
    rcases feed_times es hw
      { w with _first_micros := e.2, _bit_count := w._bit_count + 1, _bit_micros := e.2,
               _status := .Receiving, _rcv_buffer := shiftIn w._rcv_buffer e.1 }
      rfl hpace (fun x hx => hrange x (List.mem_cons_of_mem _ hx)) with herr | ⟨_, hfst, hbit⟩
    · rw [herr] at hrecv; exact absurd hrecv (by decide)
    · dsimp only at hfst hbit ⊢
      rw [hfst, hbit]
      exact subUL_of_le hle hlast
  · rw [readBit_idle_full hw w e.1 e.2 e.2 e.2 hidle (Nat.not_lt.mp hc)] at hrecv
    rw [feed_error es hw _ rfl] at hrecv
    exact WiegandStatus.noConfusion hrecv

/-- An idle instance as `clear()` leaves it. -/
def sampleIdle : Wiegand :=
  { _low_int_pin := 2, _high_int_pin := 3, _first_micros := 50, _bit_micros := 50,
    _rcv_buffer := [0, 0, 0, 0, 0], _bit_count := 0, _status := .Idle, status := .Idle,
    bit_count := 0, rcv_buffer := [0, 0, 0, 0, 0], total_micros := 0 }

/-- Twenty-six edges of alternating value, 1000 us apart, the first at 1000. -/
def sampleEdges26 : List (Bool × Nat) :=
  (List.range 26).map (fun i => (decide (i % 2 = 0), 1000 + 1000 * i))

/-- Witness of C3: 26 edges 1000 us apart, polled 6000 us after the last, give 25000. -/
theorem frame_duration_witness :
    (Wiegand.finishRead (feed sampleHw sampleIdle sampleEdges26).1
      (feed sampleHw sampleIdle sampleEdges26).2 32000).2.1.total_micros = 25000 :=
  frame_duration sampleHw sampleIdle sampleEdges26 32000 (by decide) (by decide)
    (by simp [sampleEdges26, List.range, List.range.loop, Paced, WIEGAND_MAX_BIT_INTERVAL])
    (by decide) (by decide)

theorem run_edges_public (m : Mcu) (this : Nat) (calls : List Call) : ∀ (hw : Hw) (w : Wiegand),
    (∀ c ∈ calls, c.isReadBit = true) →
    (run m this hw w calls).2.1.status = w.status ∧
    (run m this hw w calls).2.1.bit_count = w.bit_count ∧
    (run m this hw w calls).2.1.rcv_buffer = w.rcv_buffer ∧
    (run m this hw w calls).2.1.total_micros = w.total_micros := by
  induction calls with
  | nil => intro hw w _; exact ⟨rfl, rfl, rfl, rfl⟩
  | cons c cs ih =>
    intro hw w hc
    have hcs : ∀ x ∈ cs, x.isReadBit = true := fun x hx => hc x (List.mem_cons_of_mem _ hx)
    cases c with
    | readBit val m0 m1 m2 =>
      obtain ⟨h1, h2, h3, h4⟩ := readBit_public hw w val m0 m1 m2
      obtain ⟨i1, i2, i3, i4⟩ := ih (Wiegand.readBit hw w val m0 m1 m2).1
        (Wiegand.readBit hw w val m0 m1 m2).2 hcs
      simp only [run, exec]
      exact ⟨i1.trans h1, i2.trans h2, i3.trans h3, i4.trans h4⟩
    | finishRead now => exact absurd (hc (Call.finishRead now) (List.mem_cons_self _ _)) (by simp [Call.isReadBit])
    | clear make_atomic now =>
      exact absurd (hc (Call.clear make_atomic now) (List.mem_cons_self _ _)) (by simp [Call.isReadBit])
    | suspend => exact absurd (hc Call.suspend (List.mem_cons_self _ _)) (by simp [Call.isReadBit])
    | resume => exact absurd (hc Call.resume (List.mem_cons_self _ _)) (by simp [Call.isReadBit])
    | print => exact absurd (hc Call.print (List.mem_cons_self _ _)) (by simp [Call.isReadBit])
    | begin now => exact absurd (hc (Call.begin now) (List.mem_cons_self _ _)) (by simp [Call.isReadBit])

/-- C4. Double buffering: in every state, for every bit value and whatever the
clock reads, `readBit` leaves the public fields `status`, `bit_count`,
`rcv_buffer` and `total_micros` unchanged (this covers the calls that discard a
Done or timed-out frame and the calls that enter Error); so does every sequence
of edge notifications, the calls that can happen between two polls. -/
theorem readBit_keeps_public (m : Mcu) (this : Nat) (hw : Hw) (w : Wiegand) (val : Bool)
    (m0 m1 m2 : Nat) :
    ((Wiegand.readBit hw w val m0 m1 m2).2.status = w.status ∧
      (Wiegand.readBit hw w val m0 m1 m2).2.bit_count = w.bit_count ∧
      (Wiegand.readBit hw w val m0 m1 m2).2.rcv_buffer = w.rcv_buffer ∧
      (Wiegand.readBit hw w val m0 m1 m2).2.total_micros = w.total_micros) ∧
    (∀ calls : List Call, (∀ c ∈ calls, c.isReadBit = true) →
      (run m this hw w calls).2.1.status = w.status ∧
      (run m this hw w calls).2.1.bit_count = w.bit_count ∧
      (run m this hw w calls).2.1.rcv_buffer = w.rcv_buffer ∧
      (run m this hw w calls).2.1.total_micros = w.total_micros) :=
  ⟨readBit_public hw w val m0 m1 m2, fun calls hc => run_edges_public m this calls hw w hc⟩

/-- Witness of C4: an edge that discards an unconsumed Done frame. -/
theorem readBit_keeps_public_witness :
    (run Mcu.ATmega328P 0 sampleHw sampleDirty
      [Call.readBit true 100 100 100, Call.readBit false 9000 9000 9000]).2.1.rcv_buffer =
      [9, 9, 9, 9, 9] :=
  ((readBit_keeps_public Mcu.ATmega328P 0 sampleHw sampleDirty true 100 100 100).2
    [Call.readBit true 100 100 100, Call.readBit false 9000 9000 9000] (by decide)).2.2.1

theorem exec_published (m : Mcu) (this : Nat) (hw : Hw) (w : Wiegand) (c : Call)
    (hs : w._status = .Done) (hp : w.status = .Done)
    (hc : c.isClear = false ∧ c.isReadBit = false) :
    (exec m this hw w c).2.1 = w ∧ (exec m this hw w c).2.2 ≠ some true := by
  have hw' : ({ w with status := w._status } : Wiegand) = w := by
    cases w; simp only at hs hp ⊢; rw [hp, hs]
  cases c with
  | readBit val m0 m1 m2 => simp [Call.isReadBit] at hc
  | finishRead now =>
    simp only [exec, finishRead_settled hw w now (Or.inl hs), hw']
    simp
  | clear make_atomic now => simp [Call.isClear] at hc
  | suspend => simp [exec, Wiegand.suspend, hs]
  | resume => simp [exec, Wiegand.resume, hs]
  | print => simp [exec, Wiegand.print, hs, hp]
  | begin now => simp [exec, Wiegand.begin, hs]

theorem run_published (m : Mcu) (this : Nat) (calls : List Call) : ∀ (hw : Hw) (w : Wiegand),
    w._status = .Done → w.status = .Done →
    (∀ c ∈ calls, c.isClear = false ∧ c.isReadBit = false) →
    (run m this hw w calls).2.1 = w ∧ ∀ b ∈ (run m this hw w calls).2.2, b = false := by
  induction calls with
  | nil => intro hw w _ _ _; exact ⟨rfl, by simp [run]⟩
  | cons c cs ih =>
    intro hw w hs hp hc
    obtain ⟨hstep, hres⟩ := exec_published m this hw w c hs hp (hc c (by simp))
    obtain ⟨i1, i2⟩ := ih (exec m this hw w c).1 (exec m this hw w c).2.1
      (by rw [hstep]; exact hs) (by rw [hstep]; exact hp)
      (fun x hx => hc x (List.mem_cons_of_mem _ hx))
    have i1 := i1.trans hstep
    cases c with
    | finishRead now =>
      refine ⟨i1, ?_⟩
      intro b hb
      simp only [run, List.mem_cons] at hb
      rcases hb with hb | hb
      · rw [hb]
        cases hx : (exec m this hw w (Call.finishRead now)).2.2 with
        | none => rfl
        | some v =>
          cases v with
          | false => rfl
          | true => exact absurd hx hres
      · exact i2 b hb
    | readBit val m0 m1 m2 => exact ⟨i1, i2⟩
    | clear make_atomic now => exact ⟨i1, i2⟩
    | suspend => exact ⟨i1, i2⟩
    | resume => exact ⟨i1, i2⟩
    | print => exact ⟨i1, i2⟩
    | begin now => exact ⟨i1, i2⟩

/-- C5. Idempotence of polling a finished frame: once `finishRead()` has returned
true, as long as no edge notification and no `clear()` occurs, every further
`finishRead()` call, at any clock value (and with any `suspend`, `resume`,
`print` or `begin` calls in between), returns false and leaves the instance,
hence public status (Done), `rcv_buffer`, `bit_count` and `total_micros`,
exactly as they were after the first call. -/
theorem poll_idempotent (m : Mcu) (this : Nat) (hw : Hw) (w : Wiegand) (now : Nat)
    (calls : List Call) (h : (Wiegand.finishRead hw w now).2.2 = true)
    (hcalls : ∀ c ∈ calls, c.isClear = false ∧ c.isReadBit = false) :
    let s := Wiegand.finishRead hw w now
    let r := run m this s.1 s.2.1 calls
    (∀ b ∈ r.2.2, b = false) ∧
    s.2.1.status = .Done ∧ r.2.1.status = .Done ∧
    r.2.1.rcv_buffer = s.2.1.rcv_buffer ∧ r.2.1.bit_count = s.2.1.bit_count ∧
    r.2.1.total_micros = s.2.1.total_micros ∧ r.2.1 = s.2.1 := by
  intro s r
  obtain ⟨_, heq⟩ := finishRead_true hw w now h
  have hs : s.2.1._status = .Done := by show (Wiegand.finishRead hw w now).2.1._status = _; rw [heq]
  have hp : s.2.1.status = .Done := by show (Wiegand.finishRead hw w now).2.1.status = _; rw [heq]
  obtain ⟨i1, i2⟩ := run_published m this calls s.1 s.2.1 hs hp hcalls
  have hr : r.2.1 = s.2.1 := i1
  exact ⟨i2, hp, by rw [hr]; exact hp, by rw [hr], by rw [hr], by rw [hr], hr⟩

/-- Witness of C5: a frame published at 8000, then polls at 8001, 20000 and 3
with a `print` in between: the status is still Done. -/
theorem poll_idempotent_witness :
    (run Mcu.ATmega328P 0 (Wiegand.finishRead sampleHw sampleReceiving 8000).1
      (Wiegand.finishRead sampleHw sampleReceiving 8000).2.1
      [Call.finishRead 8001, Call.print, Call.finishRead 20000, Call.finishRead 3]).2.1.status =
      .Done :=
  (poll_idempotent Mcu.ATmega328P 0 sampleHw sampleReceiving 8000
    [Call.finishRead 8001, Call.print, Call.finishRead 20000, Call.finishRead 3]
    (by decide) (by decide)).2.2.1

/-! ## Error is absorbing -/

theorem exec_error (m : Mcu) (this : Nat) (hw : Hw) (w : Wiegand) (c : Call)
    (hs : w._status = .Error) (hc : c.isClear = false) :
    ((exec m this hw w c).2.1 = w ∨ (exec m this hw w c).2.1 = { w with status := .Error }) ∧
    (exec m this hw w c).2.2 ≠ some true := by
  cases c with
  | readBit val m0 m1 m2 =>
    simp [exec, readBit_error hw w val m0 m1 m2 hs]
  | finishRead now =>
    simp [exec, finishRead_settled hw w now (Or.inr (Or.inl hs)), hs]
  | clear make_atomic now => simp [Call.isClear] at hc
  | suspend =>
    simp only [exec, Wiegand.suspend, hs]
    exact ⟨Or.inl rfl, by simp⟩
  | resume =>
    simp only [exec, Wiegand.resume, hs]
    exact ⟨Or.inl rfl, by simp⟩
  | print =>
    refine ⟨Or.inl ?_, by simp [exec]⟩
    simp only [exec, Wiegand.print, hs]
    cases w.status <;> rfl
  | begin now =>
    simp only [exec, Wiegand.begin, hs]
    exact ⟨Or.inl rfl, by simp⟩

theorem run_error (m : Mcu) (this : Nat) (calls : List Call) : ∀ (hw : Hw) (w : Wiegand),
    w._status = .Error → (∀ c ∈ calls, c.isClear = false) →
    ((run m this hw w calls).2.1 = w ∨
      (run m this hw w calls).2.1 = { w with status := .Error }) ∧
    ∀ b ∈ (run m this hw w calls).2.2, b = false := by
  induction calls with
  | nil => intro hw w _ _; exact ⟨Or.inl rfl, by simp [run]⟩
  | cons c cs ih =>
    intro hw w hs hc
    obtain ⟨hstep, hres⟩ := exec_error m this hw w c hs (hc c (by simp))
    have hs' : (exec m this hw w c).2.1._status = .Error := by
      rcases hstep with h | h <;> rw [h] <;> exact hs
    obtain ⟨i1, i2⟩ := ih (exec m this hw w c).1 (exec m this hw w c).2.1 hs'
      (fun x hx => hc x (List.mem_cons_of_mem _ hx))
    have hfin : (run m this (exec m this hw w c).1 (exec m this hw w c).2.1 cs).2.1 = w ∨
        (run m this (exec m this hw w c).1 (exec m this hw w c).2.1 cs).2.1 =
          { w with status := .Error } := by
      rcases hstep with h | h <;> rcases i1 with i | i <;> rw [i, h] <;> simp
    cases c with
    | finishRead now =>
      refine ⟨hfin, ?_⟩
      intro b hb
      simp only [run, List.mem_cons] at hb
      rcases hb with hb | hb
      · rw [hb]
        cases hx : (exec m this hw w (Call.finishRead now)).2.2 with
        | none => rfl
        | some v =>
          cases v with
          | false => rfl
          | true => exact absurd hx hres
      · exact i2 b hb
    | readBit val m0 m1 m2 => exact ⟨hfin, i2⟩
    | clear make_atomic now => exact ⟨hfin, i2⟩
    | suspend => exact ⟨hfin, i2⟩
    | resume => exact ⟨hfin, i2⟩
    | print => exact ⟨hfin, i2⟩
    | begin now => exact ⟨hfin, i2⟩

theorem run_error_fields (m : Mcu) (this : Nat) (calls : List Call) (hw : Hw) (w : Wiegand)
    (hs : w._status = .Error) (hc : ∀ c ∈ calls, c.isClear = false) :
    (run m this hw w calls).2.1._status = .Error ∧
    (run m this hw w calls).2.1._bit_count = w._bit_count ∧
    (run m this hw w calls).2.1._rcv_buffer = w._rcv_buffer ∧
    ((run m this hw w calls).2.1.status = w.status ∨
      (run m this hw w calls).2.1.status = .Error) ∧
    ∀ b ∈ (run m this hw w calls).2.2, b = false := by
  obtain ⟨h1, h2⟩ := run_error m this calls hw w hs hc
  rcases h1 with h | h
  · rw [h]; exact ⟨hs, rfl, rfl, Or.inl rfl, h2⟩
  · rw [h]; exact ⟨hs, rfl, rfl, Or.inr rfl, h2⟩

theorem clear_initialized (hw : Hw) (w : Wiegand) (make_atomic : Bool) (now : Nat)
    (hs : w._status ≠ .Uninitialized) :
    (Wiegand.clear hw w make_atomic now).2._status = .Idle ∧
    (Wiegand.clear hw w make_atomic now).2.status = .Idle ∧
    (Wiegand.clear hw w make_atomic now).2._bit_count = 0 ∧
    (Wiegand.clear hw w make_atomic now).2.bit_count = 0 ∧
    (Wiegand.clear hw w make_atomic now).2._first_micros = now ∧
    (Wiegand.clear hw w make_atomic now).2._bit_micros = now := by
  simp [Wiegand.clear, hs]

theorem feed_overflow (es : List (Bool × Nat)) : ∀ (hw : Hw) (w : Wiegand),
    w._status = .Receiving →
    List.Chain Paced w._bit_micros (es.map Prod.snd) →
    (∀ e ∈ es, e.2 < 4294967296) →
    w._bit_count ≤ WIEGAND_MAX_BITS → WIEGAND_MAX_BITS < w._bit_count + es.length →
    (feed hw w es).2._status = .Error := by
  induction es with
  | nil => intro hw w _ _ _ h1 h2; simp only [List.length_nil] at h2; omega
  | cons e es ih =>
    intro hw w hs hp hr h1 h2
    simp only [List.map_cons, List.chain_cons, List.length_cons] at hp h2
    have he : e.2 < 4294967296 := hr e (by simp)
    simp only [feed, readBit_paced hw w e.1 e.2 e.2 e.2 hs hp.1 he]
    by_cases hlt : w._bit_count < WIEGAND_MAX_BITS
    · rw [storeBit_ok hw w e.1 e.2 hlt]
      exact ih hw _ rfl hp.2 (fun x hx => hr x (List.mem_cons_of_mem _ hx))
        (by simp only; omega) (by simp only; omega)
    · rw [storeBit_full hw w e.1 e.2 (Nat.not_lt.mp hlt), feed_error es hw _ rfl]

/-- Thirty-seven edges of value 1, 1000 us apart, the first at 1000. -/
def sampleEdges37 : List (Bool × Nat) :=
  (List.range 37).map (fun i => (true, 1000 + 1000 * i))

/-! ## C6 - C10 -/

/-- C6. Overflow: from the state left by `clear()` on an initialized instance,
`WIEGAND_MAX_BITS + 1` = 37 edges with gaps of at most 5000 us (no wrap) leave
the private status Error. After that, whatever calls other than `clear()` are
made, no `finishRead()` returns true, the status is never Done, and a
`finishRead()` reports Error; a subsequent `clear()` restores Idle with bit
count 0. -/
theorem overflow_error (m : Mcu) (this : Nat) (hw0 : Hw) (w0 : Wiegand) (make_atomic : Bool)
    (t0 : Nat) (edges : List (Bool × Nat)) (calls : List Call) (tpoll tclear : Nat)
    (atomic2 : Bool)
    (hinit : w0._status ≠ .Uninitialized)
    (hlen : edges.length = WIEGAND_MAX_BITS + 1)
    (hpace : List.Chain' Paced (edges.map Prod.snd))
    (hrange : ∀ e ∈ edges, e.2 < 4294967296)
    (hcalls : ∀ c ∈ calls, c.isClear = false) :
    let c := Wiegand.clear hw0 w0 make_atomic t0
    let f := feed c.1 c.2 edges
    let r := run m this f.1 f.2 calls
    let p := Wiegand.finishRead r.1 r.2.1 tpoll
    let z := Wiegand.clear r.1 r.2.1 atomic2 tclear
    f.2._status = .Error ∧
    r.2.1._status = .Error ∧ r.2.1.status ≠ .Done ∧ (∀ b ∈ r.2.2, b = false) ∧
    p.2.2 = false ∧ p.2.1._status = .Error ∧ p.2.1.status = .Error ∧
    z.2._status = .Idle ∧ z.2.status = .Idle ∧ z.2._bit_count = 0 ∧ z.2.bit_count = 0 := by
  intro c f r p z
  have h36 : WIEGAND_MAX_BITS = 36 := rfl
  obtain ⟨c1, c2, c3, _, _, _⟩ :
      c.2._status = .Idle ∧ c.2.status = .Idle ∧ c.2._bit_count = 0 ∧ c.2.bit_count = 0 ∧
      c.2._first_micros = t0 ∧ c.2._bit_micros = t0 :=
    clear_initialized hw0 w0 make_atomic t0 hinit
  have hne : edges ≠ [] := by
    intro h; rw [h] at hlen; simp at hlen
  obtain ⟨e, es, rfl⟩ := List.exists_cons_of_ne_nil hne
  simp only [List.map_cons, List.length_cons] at hlen hpace
  have hf : f = feed c.1
      { c.2 with _first_micros := e.2, _bit_count := c.2._bit_count + 1, _bit_micros := e.2,
                 _status := .Receiving, _rcv_buffer := shiftIn c.2._rcv_buffer e.1 } es := by
    show feed c.1 c.2 (e :: es) = _
    simp only [feed]
    rw [readBit_first c.1 c.2 e.1 e.2 e.2 e.2 c1 (by rw [c3]; omega)]
  have hferr : f.2._status = .Error := by
    rw [hf]
    exact feed_overflow es c.1 _ rfl hpace (fun x hx => hrange x (List.mem_cons_of_mem _ hx))
      (by simp only; omega) (by simp only; omega)
  have hfpub : f.2.status = .Idle := by
    rw [(feed_public (e :: es) c.1 c.2).1, c2]
  obtain ⟨hrs, _, _, hr1, hr2⟩ :
      r.2.1._status = .Error ∧ r.2.1._bit_count = f.2._bit_count ∧
      r.2.1._rcv_buffer = f.2._rcv_buffer ∧
      (r.2.1.status = f.2.status ∨ r.2.1.status = .Error) ∧ ∀ b ∈ r.2.2, b = false :=
    run_error_fields m this calls f.1 f.2 hferr hcalls
  have hrp : r.2.1.status ≠ .Done := by
    rcases hr1 with h | h
    · rw [h, hfpub]; decide
    · rw [h]; decide
  have hp : p = _ := finishRead_settled r.1 r.2.1 tpoll (Or.inr (Or.inl hrs))
  have hz := clear_initialized r.1 r.2.1 atomic2 tclear (by rw [hrs]; decide)
  refine ⟨hferr, hrs, hrp, hr2, ?_, ?_, ?_, hz.1, hz.2.1, hz.2.2.1, hz.2.2.2.1⟩
  · rw [hp]
  · rw [hp]; exact hrs
  · rw [hp]; exact hrs

/-- Witness of C6: 37 edges 1000 us apart after `clear()`, then a poll, an edge
and another poll. -/
theorem overflow_error_witness :
    (feed (Wiegand.clear sampleHw sampleDirty true 50).1
      (Wiegand.clear sampleHw sampleDirty true 50).2 sampleEdges37).2._status = .Error :=
  (overflow_error Mcu.ATmega328P 0 sampleHw sampleDirty true 50 sampleEdges37
    [Call.finishRead 50000, Call.readBit true 51000 51000 51000, Call.finishRead 60000]
    70000 80000 true (by decide) (by decide)
    (by simp [sampleEdges37, List.range, List.range.loop, Paced, WIEGAND_MAX_BIT_INTERVAL])
    (by decide) (by decide)).1

/-- C7. Error is sticky: once the private status is Error, every sequence of
`readBit`, `finishRead`, `suspend`, `resume`, `print` and `begin` calls, with
any arguments, leaves the private status Error and the private bit count and
buffer unchanged, and no `finishRead` in it returns true; `clear()` leaves
Error (the status becomes Idle). -/
theorem error_sticky (m : Mcu) (this : Nat) (hw : Hw) (w : Wiegand) (calls : List Call)
    (make_atomic : Bool) (now : Nat)
    (hs : w._status = .Error) (hcalls : ∀ c ∈ calls, c.isClear = false) :
    (run m this hw w calls).2.1._status = .Error ∧
    (run m this hw w calls).2.1._bit_count = w._bit_count ∧
    (run m this hw w calls).2.1._rcv_buffer = w._rcv_buffer ∧
    (∀ b ∈ (run m this hw w calls).2.2, b = false) ∧
    (Wiegand.clear hw w make_atomic now).2._status = .Idle := by
  obtain ⟨h1, h2, h3, _, h5⟩ := run_error_fields m this calls hw w hs hcalls
  have hz := clear_initialized hw w make_atomic now (by rw [hs]; decide)
  exact ⟨h1, h2, h3, h5, hz.1⟩

/-- An instance that overflowed: private status Error after a 37th edge. -/
def sampleError : Wiegand :=
  { _low_int_pin := 2, _high_int_pin := 3, _first_micros := 1000, _bit_micros := 36000,
    _rcv_buffer := [255, 255, 255, 255, 15], _bit_count := 37, _status := .Error,
    status := .Receiving, bit_count := 0, rcv_buffer := [0, 0, 0, 0, 0], total_micros := 0 }

/-- Witness of C7: an edge, a poll, suspend, resume, print, begin and a late poll. -/
theorem error_sticky_witness :
    (run Mcu.ATmega328P 0 sampleHw sampleError
      [Call.readBit true 37000 37000 37000, Call.finishRead 38000, Call.suspend, Call.resume,
       Call.print, Call.begin 39000, Call.finishRead 90000]).2.1._status = .Error :=
  (error_sticky Mcu.ATmega328P 0 sampleHw sampleError
    [Call.readBit true 37000 37000 37000, Call.finishRead 38000, Call.suspend, Call.resume,
     Call.print, Call.begin 39000, Call.finishRead 90000] true 100000
    (by decide) (by decide)).1

theorem readBit_wrap (hw : Hw) (w : Wiegand) (val : Bool) (m0 m1 m2 : Nat)
    (hs : w._status = .Receiving) (hwrap : m0 < w._bit_micros) :
    Wiegand.readBit hw w val m0 m1 m2 = (hw, { w with _status := .Error }) := by
  unfold Wiegand.readBit
  simp [hs, hwrap]

theorem finishRead_wrap (hw : Hw) (w : Wiegand) (now : Nat)
    (hs : w._status = .Receiving) (hwrap : now < w._bit_micros) :
    Wiegand.finishRead hw w now =
      (interrupts (noInterrupts hw), { w with _status := .Error, status := .Error }, false) := by
  unfold Wiegand.finishRead
  simp [hs, hwrap]

/-- C8. Clock wraparound mid-frame: when the private status is Receiving and the
clock value read is less than the last-bit timestamp, `readBit` sets the private
status to Error and leaves bit count and buffer unchanged; `finishRead` returns
false, sets private and public status to Error and leaves the published
`bit_count`, `rcv_buffer` and `total_micros` unchanged. After such an edge no
`finishRead` returns true, a poll reports Error, and `clear()` restores Idle
with bit count 0. In particular, from Idle, one edge followed by a second edge
with a smaller timestamp gives Error. -/
theorem clock_wrap_error (m : Mcu) (this : Nat) (hw : Hw) (w : Wiegand) (val : Bool)
    (now m1 m2 : Nat) (calls : List Call) (tpoll tclear : Nat) (make_atomic : Bool)
    (hs : w._status = .Receiving) (hwrap : now < w._bit_micros)
    (hcalls : ∀ c ∈ calls, c.isClear = false) :
    let e := Wiegand.readBit hw w val now m1 m2
    let p := Wiegand.finishRead hw w now
    let r := run m this e.1 e.2 calls
    let q := Wiegand.finishRead r.1 r.2.1 tpoll
    let z := Wiegand.clear r.1 r.2.1 make_atomic tclear
    (e.2._status = .Error ∧ e.2._bit_count = w._bit_count ∧ e.2._rcv_buffer = w._rcv_buffer) ∧
    (p.2.2 = false ∧ p.2.1._status = .Error ∧ p.2.1.status = .Error ∧
      p.2.1.bit_count = w.bit_count ∧ p.2.1.rcv_buffer = w.rcv_buffer ∧
      p.2.1.total_micros = w.total_micros) ∧
    (r.2.1._status = .Error ∧ (∀ b ∈ r.2.2, b = false) ∧
      q.2.2 = false ∧ q.2.1._status = .Error ∧ q.2.1.status = .Error) ∧
    (z.2._status = .Idle ∧ z.2.status = .Idle ∧ z.2._bit_count = 0 ∧ z.2.bit_count = 0) ∧
    (∀ (w0 : Wiegand) (v1 v2 : Bool) (t1 t2 : Nat), w0._status = .Idle →
      w0._bit_count < WIEGAND_MAX_BITS → t2 < t1 →
      (feed hw w0 [(v1, t1), (v2, t2)]).2._status = .Error) := by
  intro e p r q z
  have he : e = (hw, { w with _status := .Error }) := readBit_wrap hw w val now m1 m2 hs hwrap
  have hp : p = _ := finishRead_wrap hw w now hs hwrap
  have hes : e.2._status = .Error := by rw [he]
  obtain ⟨hrs, _, _, _, hr2⟩ :
      r.2.1._status = .Error ∧ r.2.1._bit_count = e.2._bit_count ∧
      r.2.1._rcv_buffer = e.2._rcv_buffer ∧
      (r.2.1.status = e.2.status ∨ r.2.1.status = .Error) ∧ ∀ b ∈ r.2.2, b = false :=
    run_error_fields m this calls e.1 e.2 hes hcalls
  have hq : q = _ := finishRead_settled r.1 r.2.1 tpoll (Or.inr (Or.inl hrs))
  have hz := clear_initialized r.1 r.2.1 make_atomic tclear (by rw [hrs]; decide)
  refine ⟨?_, ?_, ⟨hrs, hr2, ?_, ?_, ?_⟩, ⟨hz.1, hz.2.1, hz.2.2.1, hz.2.2.2.1⟩, ?_⟩
  · rw [he]; exact ⟨rfl, rfl, rfl⟩
  · rw [hp]; exact ⟨rfl, rfl, rfl, rfl, rfl, rfl⟩
  · rw [hq]
  · rw [hq]; exact hrs
  · rw [hq]; exact hrs
  · intro w0 v1 v2 t1 t2 h0 hc hlt
    simp only [feed]
    rw [readBit_first hw w0 v1 t1 t1 t1 h0 hc]
    rw [readBit_wrap hw _ v2 t2 t2 t2 rfl hlt]

/-- Witness of C8: the instance received its last bit at 2000; the next edge
reads the clock value 10. -/
theorem clock_wrap_error_witness :
    (Wiegand.readBit sampleHw sampleReceiving true 10 10 10).2._status = .Error :=
  (clock_wrap_error Mcu.ATmega328P 0 sampleHw sampleReceiving true 10 10 10
    [Call.finishRead 20, Call.readBit false 30 30 30] 6000 7000 true
    (by decide) (by decide) (by decide)).1.1

/-- C9. `clear()`, for either value of `make_atomic`: on an instance that is not
Uninitialized, private and public status become Idle, private and public bit
count 0, every byte of the private and the public buffer 0, and frame-start and
last-bit timestamps the current clock value; on an Uninitialized instance
nothing changes. -/
theorem clear_resets (hw : Hw) (w : Wiegand) (make_atomic : Bool) (now : Nat)
    (hwf : w.WellFormed) :
    let z := Wiegand.clear hw w make_atomic now
    (w._status ≠ .Uninitialized →
      z.2._status = .Idle ∧ z.2.status = .Idle ∧ z.2._bit_count = 0 ∧ z.2.bit_count = 0 ∧
      z.2._rcv_buffer = List.replicate WIEGAND_MAX_BYTES 0 ∧
      z.2.rcv_buffer = List.replicate WIEGAND_MAX_BYTES 0 ∧
      z.2._first_micros = now ∧ z.2._bit_micros = now) ∧
    (w._status = .Uninitialized → z = (hw, w)) := by
  intro z
  refine ⟨fun hs => clear_fields hw w make_atomic now hs hwf, fun hs => ?_⟩
  show Wiegand.clear hw w make_atomic now = _
  unfold Wiegand.clear
  simp [hs]

/-- Witness of C9: clearing an instance that holds a finished frame. -/
theorem clear_resets_witness :
    (Wiegand.clear sampleHw sampleDirty false 50).2._rcv_buffer =
      List.replicate WIEGAND_MAX_BYTES 0 :=
  ((clear_resets sampleHw sampleDirty false 50 (by decide)).1 (by decide)).2.2.2.2.1

/-- C10 (evaluation of the code). On an ATmega2560, an instance on pins 2 and 3
whose `begin()` succeeded and whose lines are enabled (`resume()` sets bits
`INT4` and `INT5` of `EIMSK`): `suspend()` leaves `EIMSK` as it was, both enable
bits still set, because `detachPin` tests `defined(__AVR_ATmega1280__) &&
defined(__AVR_ATmega2560__)`. The same calls on an ATmega328P clear both bits. -/
theorem suspend_mega_keeps_enabled :
    (Wiegand.begin Mcu.ATmega2560 0 sampleHw (Wiegand.construct sampleDirty 2 3) 50).2.2 = true ∧
    (Wiegand.resume Mcu.ATmega2560
      (Wiegand.begin Mcu.ATmega2560 0 sampleHw (Wiegand.construct sampleDirty 2 3) 50).1
      (Wiegand.begin Mcu.ATmega2560 0 sampleHw (Wiegand.construct sampleDirty 2 3) 50).2.1).1.EIMSK
      = 48 ∧
    (Wiegand.suspend Mcu.ATmega2560
      (Wiegand.resume Mcu.ATmega2560
        (Wiegand.begin Mcu.ATmega2560 0 sampleHw (Wiegand.construct sampleDirty 2 3) 50).1
        (Wiegand.begin Mcu.ATmega2560 0 sampleHw (Wiegand.construct sampleDirty 2 3) 50).2.1).1
      (Wiegand.begin Mcu.ATmega2560 0 sampleHw (Wiegand.construct sampleDirty 2 3) 50).2.1).1.EIMSK
      = 48 ∧
    (Nat.testBit 48 (INT 4) = true ∧ Nat.testBit 48 (INT 5) = true) ∧
    (Wiegand.suspend Mcu.ATmega328P
      (Wiegand.resume Mcu.ATmega328P
        (Wiegand.begin Mcu.ATmega328P 0 sampleHw (Wiegand.construct sampleDirty 2 3) 50).1
        (Wiegand.begin Mcu.ATmega328P 0 sampleHw (Wiegand.construct sampleDirty 2 3) 50).2.1).1
      (Wiegand.begin Mcu.ATmega328P 0 sampleHw (Wiegand.construct sampleDirty 2 3) 50).2.1).1.EIMSK
      = 0 := by
  decide

/-! ## C11 - C20 -/

theorem begin_initialized (m : Mcu) (this : Nat) (hw : Hw) (w : Wiegand) (now : Nat)
    (h : w._status ≠ .Uninitialized) : Wiegand.begin m this hw w now = (hw, w, false) := by
  unfold Wiegand.begin
  simp [h]

/-- C12. `begin()` on an instance whose status is not Uninitialized returns false
and leaves every member of the instance, the owner pointers and the interrupt
configuration (all of the environment) unchanged. -/
theorem begin_again_rejected (m : Mcu) (this : Nat) (hw : Hw) (w : Wiegand) (now : Nat)
    (h : w._status ≠ .Uninitialized) :
    (Wiegand.begin m this hw w now).2.2 = false ∧
    (Wiegand.begin m this hw w now).2.1 = w ∧
    (Wiegand.begin m this hw w now).1 = hw := by
  rw [begin_initialized m this hw w now h]
  exact ⟨rfl, rfl, rfl⟩

/-- Witness of C12: `begin()` on an instance that is already receiving. -/
theorem begin_again_rejected_witness :
    (Wiegand.begin Mcu.ATmega328P 0 sampleHw sampleReceiving 50).2.2 = false :=
  (begin_again_rejected Mcu.ATmega328P 0 sampleHw sampleReceiving 50 (by decide)).1

theorem finishRead_false (hw : Hw) (w : Wiegand) (now : Nat)
    (h : (Wiegand.finishRead hw w now).2.2 = false) :
    (Wiegand.finishRead hw w now).2.1.bit_count = w.bit_count ∧
    (Wiegand.finishRead hw w now).2.1.rcv_buffer = w.rcv_buffer ∧
    (Wiegand.finishRead hw w now).2.1.total_micros = w.total_micros := by
  unfold Wiegand.finishRead at h ⊢
  by_cases hu : w._status = .Uninitialized
  · simp [hu]
  by_cases hr : w._status = .Receiving
  · by_cases hlt : now < w._bit_micros
    · simp [hr, hlt]
    · by_cases hg : subUL now w._bit_micros > WIEGAND_MAX_BIT_INTERVAL
      · simp [hr, hlt, hg] at h
      · simp [hr, hlt, hg]
  · simp [hu, hr]

/-- C14. A poll that does not complete a frame leaves the published frame alone:
whenever `finishRead()` returns false, in any state and at any clock value,
public `bit_count`, `rcv_buffer` and `total_micros` are what they were before
the call; so these fields change in `finishRead` only on a call that returns
true. -/
theorem poll_false_keeps_frame (hw : Hw) (w : Wiegand) (now : Nat)
    (h : (Wiegand.finishRead hw w now).2.2 = false) :
    (Wiegand.finishRead hw w now).2.1.bit_count = w.bit_count ∧
    (Wiegand.finishRead hw w now).2.1.rcv_buffer = w.rcv_buffer ∧
    (Wiegand.finishRead hw w now).2.1.total_micros = w.total_micros :=
  finishRead_false hw w now h

/-- Witness of C14: a poll 5000 us after the last bit, still inside the interval. -/
theorem poll_false_keeps_frame_witness :
    (Wiegand.finishRead sampleHw sampleReceiving 7000).2.1.bit_count = 0 :=
  (poll_false_keeps_frame sampleHw sampleReceiving 7000 (by decide)).1

theorem finishRead_status (hw : Hw) (w : Wiegand) (now : Nat)
    (h : w._status ≠ .Uninitialized) :
    (Wiegand.finishRead hw w now).2.1.status = (Wiegand.finishRead hw w now).2.1._status := by
  unfold Wiegand.finishRead
  by_cases hr : w._status = .Receiving
  · by_cases hlt : now < w._bit_micros
    · simp [hr, hlt]
    · by_cases hg : subUL now w._bit_micros > WIEGAND_MAX_BIT_INTERVAL
      · simp [hr, hlt, hg]
      · simp [hr, hlt, hg]
  · simp [h, hr]

/-- C18. Public status is a copy of the private status at the last poll: right
after every `finishRead()` call on an instance that is not Uninitialized,
whether it returns true or false, public `status` equals private `_status`. -/
theorem poll_syncs_status (hw : Hw) (w : Wiegand) (now : Nat)
    (h : w._status ≠ .Uninitialized) :
    (Wiegand.finishRead hw w now).2.1.status = (Wiegand.finishRead hw w now).2.1._status :=
  finishRead_status hw w now h

/-- Witness of C18: the receiving instance has public status Idle before the poll. -/
theorem poll_syncs_status_witness :
    (Wiegand.finishRead sampleHw sampleReceiving 7000).2.1.status =
      (Wiegand.finishRead sampleHw sampleReceiving 7000).2.1._status :=
  poll_syncs_status sampleHw sampleReceiving 7000 (by decide)

/-! ### The shape of every call -/

theorem readBit_cases (hw : Hw) (w : Wiegand) (val : Bool) (m0 m1 m2 : Nat) :
    (Wiegand.readBit hw w val m0 m1 m2 = (hw, w) ∧
      (w._status = .Uninitialized ∨ w._status = .Error)) ∨
    (Wiegand.readBit hw w val m0 m1 m2 = (hw, { w with _status := .Error }) ∧
      w._status = .Receiving ∧ m0 < w._bit_micros) ∨
    (Wiegand.readBit hw w val m0 m1 m2 =
        storeBit (overrun hw w m1).1 (overrun hw w m1).2 val m2 ∧
      (w._status = .Done ∨ (w._status = .Receiving ∧ ¬ m0 < w._bit_micros ∧
        subUL m0 w._bit_micros > WIEGAND_MAX_BIT_INTERVAL))) ∨
    (Wiegand.readBit hw w val m0 m1 m2 = storeBit hw { w with _first_micros := m1 } val m2 ∧
      w._status = .Idle) ∨
    (Wiegand.readBit hw w val m0 m1 m2 = storeBit hw w val m2 ∧ w._status = .Receiving ∧
      ¬ m0 < w._bit_micros ∧ ¬ subUL m0 w._bit_micros > WIEGAND_MAX_BIT_INTERVAL) := by
  by_cases hu : w._status = .Uninitialized
  · refine Or.inl ⟨?_, Or.inl hu⟩
    unfold Wiegand.readBit; simp [hu]
  by_cases he : w._status = .Error
  · exact Or.inl ⟨readBit_error hw w val m0 m1 m2 he, Or.inr he⟩
  by_cases hd : w._status = .Done
  · refine Or.inr (Or.inr (Or.inl ⟨?_, Or.inl hd⟩))
    unfold Wiegand.readBit; simp [hd]
  by_cases hi : w._status = .Idle
  · exact Or.inr (Or.inr (Or.inr (Or.inl ⟨readBit_idle hw w val m0 m1 m2 hi, hi⟩)))
  have hr : w._status = .Receiving := by
    cases hs : w._status <;> simp_all
  by_cases hlt : m0 < w._bit_micros
  · exact Or.inr (Or.inl ⟨readBit_wrap hw w val m0 m1 m2 hr hlt, hr, hlt⟩)
  by_cases hg : subUL m0 w._bit_micros > WIEGAND_MAX_BIT_INTERVAL
  · refine Or.inr (Or.inr (Or.inl ⟨?_, Or.inr ⟨hr, hlt, hg⟩⟩))
    unfold Wiegand.readBit; simp [hr, hlt, hg]
  · refine Or.inr (Or.inr (Or.inr (Or.inr ⟨?_, hr, hlt, hg⟩)))
    unfold Wiegand.readBit; simp [hr, hlt, hg]

theorem finishRead_cases (hw : Hw) (w : Wiegand) (now : Nat) :
    (Wiegand.finishRead hw w now = (hw, w, false) ∧ w._status = .Uninitialized) ∨
    (Wiegand.finishRead hw w now =
        (interrupts (noInterrupts hw), { w with _status := .Error, status := .Error }, false) ∧
      w._status = .Receiving) ∨
    (Wiegand.finishRead hw w now =
        (interrupts (noInterrupts hw),
         { w with _status := .Done, status := .Done, bit_count := w._bit_count,
                  total_micros := subUL w._bit_micros w._first_micros,
                  rcv_buffer := copyBuffer w.rcv_buffer w._rcv_buffer }, true) ∧
      w._status = .Receiving) ∨
    (Wiegand.finishRead hw w now =
        (interrupts (noInterrupts hw), { w with status := w._status }, false) ∧
      w._status ≠ .Uninitialized) := by
  by_cases hu : w._status = .Uninitialized
  · refine Or.inl ⟨?_, hu⟩
    unfold Wiegand.finishRead; simp [hu]
  by_cases hr : w._status = .Receiving
  · by_cases hlt : now < w._bit_micros
    · exact Or.inr (Or.inl ⟨finishRead_wrap hw w now hr hlt, hr⟩)
    · by_cases hg : subUL now w._bit_micros > WIEGAND_MAX_BIT_INTERVAL
      · refine Or.inr (Or.inr (Or.inl ⟨?_, hr⟩))
        unfold Wiegand.finishRead; simp [hr, hlt, hg]
      · refine Or.inr (Or.inr (Or.inr ⟨?_, hu⟩))
        unfold Wiegand.finishRead; simp [hr, hlt, hg]
  · refine Or.inr (Or.inr (Or.inr ⟨?_, hu⟩))
    unfold Wiegand.finishRead; simp [hu, hr]

theorem storeBit_cases (hw : Hw) (w : Wiegand) (val : Bool) (m2 : Nat) :
    (storeBit hw w val m2 =
        (hw, { w with _bit_count := w._bit_count + 1, _bit_micros := m2, _status := .Receiving,
                      _rcv_buffer := shiftIn w._rcv_buffer val }) ∧
      w._bit_count < WIEGAND_MAX_BITS) ∨
    (storeBit hw w val m2 =
        (hw, { w with _bit_count := (w._bit_count + 1) % 256, _status := .Error }) ∧
      WIEGAND_MAX_BITS ≤ w._bit_count) := by
  by_cases hc : w._bit_count < WIEGAND_MAX_BITS
  · exact Or.inl ⟨storeBit_ok hw w val m2 hc, hc⟩
  · exact Or.inr ⟨storeBit_full hw w val m2 (Nat.not_lt.mp hc), Nat.not_lt.mp hc⟩

theorem print_instance (hw : Hw) (w : Wiegand) : (Wiegand.print hw w).2 = w := by
  unfold Wiegand.print
  split
  · rfl
  · cases w.status <;> rfl

theorem run_invariant (P : Wiegand → Prop) (m : Mcu) (this : Nat)
    (hstep : ∀ (hw : Hw) (w : Wiegand) (c : Call), P w → P (exec m this hw w c).2.1)
    (calls : List Call) : ∀ (hw : Hw) (w : Wiegand), P w → P (run m this hw w calls).2.1 := by
  induction calls with
  | nil => intro hw w h; exact h
  | cons c cs ih =>
    intro hw w h
    have h' := ih (exec m this hw w c).1 (exec m this hw w c).2.1 (hstep hw w c h)
    cases c <;> exact h'

theorem exec_cases (m : Mcu) (this : Nat) (hw : Hw) (w : Wiegand) (c : Call)
    (h : w._status ≠ .Uninitialized) :
    (exec m this hw w c).2.1 = w ∨
    (∃ val m0 m1 m2, (exec m this hw w c).2.1 = (Wiegand.readBit hw w val m0 m1 m2).2) ∨
    (∃ now, (exec m this hw w c).2.1 = (Wiegand.finishRead hw w now).2.1) ∨
    (∃ make_atomic now, (exec m this hw w c).2.1 = (Wiegand.clear hw w make_atomic now).2) := by
  cases c with
  | readBit val m0 m1 m2 => exact Or.inr (Or.inl ⟨val, m0, m1, m2, rfl⟩)
  | finishRead now => exact Or.inr (Or.inr (Or.inl ⟨now, rfl⟩))
  | clear make_atomic now => exact Or.inr (Or.inr (Or.inr ⟨make_atomic, now, rfl⟩))
  | suspend => left; simp [exec, Wiegand.suspend, h]
  | resume => left; simp [exec, Wiegand.resume, h]
  | print => left; simp [exec, print_instance]
  | begin now => left; simp [exec, begin_initialized m this hw w now h]

theorem readBit_initialized (hw : Hw) (w : Wiegand) (val : Bool) (m0 m1 m2 : Nat)
    (h : w._status ≠ .Uninitialized) :
    (Wiegand.readBit hw w val m0 m1 m2).2._status ≠ .Uninitialized := by
  rcases readBit_cases hw w val m0 m1 m2 with ⟨e, _⟩ | ⟨e, _⟩ | ⟨e, _⟩ | ⟨e, _⟩ | ⟨e, _⟩
  · rw [e]; exact h
  · rw [e]; simp
  · rw [e]; rcases storeBit_cases (overrun hw w m1).1 (overrun hw w m1).2 val m2
      with ⟨e', _⟩ | ⟨e', _⟩ <;> rw [e'] <;> simp
  · rw [e]; rcases storeBit_cases hw { w with _first_micros := m1 } val m2
      with ⟨e', _⟩ | ⟨e', _⟩ <;> rw [e'] <;> simp
  · rw [e]; rcases storeBit_cases hw w val m2 with ⟨e', _⟩ | ⟨e', _⟩ <;> rw [e'] <;> simp

theorem finishRead_initialized (hw : Hw) (w : Wiegand) (now : Nat)
    (h : w._status ≠ .Uninitialized) :
    (Wiegand.finishRead hw w now).2.1._status ≠ .Uninitialized := by
  rcases finishRead_cases hw w now with ⟨e, _⟩ | ⟨e, _⟩ | ⟨e, _⟩ | ⟨e, _⟩
  · rw [e]; exact h
  · rw [e]; simp
  · rw [e]; simp
  · rw [e]; exact h

theorem exec_initialized (m : Mcu) (this : Nat) (hw : Hw) (w : Wiegand) (c : Call)
    (h : w._status ≠ .Uninitialized) : (exec m this hw w c).2.1._status ≠ .Uninitialized := by
  rcases exec_cases m this hw w c h with e | ⟨val, m0, m1, m2, e⟩ | ⟨now, e⟩ | ⟨ma, now, e⟩
  · rw [e]; exact h
  · rw [e]; exact readBit_initialized hw w val m0 m1 m2 h
  · rw [e]; exact finishRead_initialized hw w now h
  · rw [e, (clear_initialized hw w ma now h).1]; simp

theorem begin_leaves_uninitialized (m : Mcu) (this : Nat) (hw : Hw) (w : Wiegand) (now : Nat) :
    (Wiegand.begin m this hw w now).2.1._status ≠ .Uninitialized := by
  by_cases h : w._status = .Uninitialized
  · unfold Wiegand.begin
    simp only [h, ne_eq, not_true_eq_false, if_false]
    split
    · simp
    · split
      · simp
      · rw [(clear_initialized _ _ false now (by simp)).1]; simp
  · rw [begin_initialized m this hw w now h]; exact h

/-- C19. Uninitialized is left only through `begin()` and never re-entered: on an
Uninitialized instance `readBit`, `clear`, `finishRead` (which returns false),
`suspend`, `resume` and `print` change neither the instance nor the environment
(so no interrupt-mask bit); and after `begin()` has been called, whatever its
result, no sequence of calls brings the private status back to Uninitialized. -/
theorem uninitialized_until_begin (m : Mcu) (this : Nat) (hw : Hw) (w : Wiegand) (val : Bool)
    (m0 m1 m2 now : Nat) (make_atomic : Bool) (calls : List Call) :
    (w._status = .Uninitialized →
      Wiegand.readBit hw w val m0 m1 m2 = (hw, w) ∧
      Wiegand.clear hw w make_atomic now = (hw, w) ∧
      Wiegand.finishRead hw w now = (hw, w, false) ∧
      Wiegand.suspend m hw w = (hw, w) ∧
      Wiegand.resume m hw w = (hw, w) ∧
      Wiegand.print hw w = (hw, w)) ∧
    (Wiegand.begin m this hw w now).2.1._status ≠ .Uninitialized ∧
    (run m this (Wiegand.begin m this hw w now).1 (Wiegand.begin m this hw w now).2.1
      calls).2.1._status ≠ .Uninitialized := by
  refine ⟨fun hu => ⟨?_, ?_, ?_, ?_, ?_, ?_⟩, begin_leaves_uninitialized m this hw w now, ?_⟩
  · unfold Wiegand.readBit; simp [hu]
  · unfold Wiegand.clear; simp [hu]
  · unfold Wiegand.finishRead; simp [hu]
  · unfold Wiegand.suspend; simp [hu]
  · unfold Wiegand.resume; simp [hu]
  · unfold Wiegand.print; simp [hu]
  · exact run_invariant (fun x => x._status ≠ .Uninitialized) m this
      (fun h x c hx => exec_initialized m this h x c hx) calls _ _
      (begin_leaves_uninitialized m this hw w now)

/-- Witness of C19: an edge on a constructed, not yet initialized instance. -/
theorem uninitialized_until_begin_witness :
    Wiegand.readBit sampleHw (Wiegand.construct sampleDirty 2 3) true 10 10 10 =
      (sampleHw, Wiegand.construct sampleDirty 2 3) :=
  ((uninitialized_until_begin Mcu.ATmega328P 0 sampleHw (Wiegand.construct sampleDirty 2 3)
    true 10 10 10 20 true []).1 (by decide)).1

theorem begin_failed (m : Mcu) (this : Nat) (hw : Hw) (w : Wiegand) (now : Nat)
    (hu : w._status = .Uninitialized) (hf : (Wiegand.begin m this hw w now).2.2 = false) :
    (Wiegand.begin m this hw w now).2.1 = { w with _status := .Error } := by
  unfold Wiegand.begin at hf ⊢
  simp only [hu, ne_eq, not_true_eq_false, if_false] at hf ⊢
  split
  · rfl
  · split
    · rfl
    · rename_i h0 h1
      simp [h0, h1] at hf

/-- C11 (the statement fails). On an ATmega328P an instance constructed on pins
2 and 2: `begin()` returns false and the status is Error; `clear()` then makes
the status Idle, and the next edge is captured (Receiving, one bit). -/
theorem failed_begin_cleared :
    (Wiegand.begin Mcu.ATmega328P 0 sampleHw (Wiegand.construct sampleDirty 2 2) 50).2.2 = false ∧
    (Wiegand.begin Mcu.ATmega328P 0 sampleHw
      (Wiegand.construct sampleDirty 2 2) 50).2.1._status = .Error ∧
    (run Mcu.ATmega328P 0
      (Wiegand.begin Mcu.ATmega328P 0 sampleHw (Wiegand.construct sampleDirty 2 2) 50).1
      (Wiegand.begin Mcu.ATmega328P 0 sampleHw (Wiegand.construct sampleDirty 2 2) 50).2.1
      [Call.clear true 60]).2.1._status = .Idle ∧
    (run Mcu.ATmega328P 0
      (Wiegand.begin Mcu.ATmega328P 0 sampleHw (Wiegand.construct sampleDirty 2 2) 50).1
      (Wiegand.begin Mcu.ATmega328P 0 sampleHw (Wiegand.construct sampleDirty 2 2) 50).2.1
      [Call.clear true 60, Call.readBit false 100 100 100]).2.1._status = .Receiving ∧
    (run Mcu.ATmega328P 0
      (Wiegand.begin Mcu.ATmega328P 0 sampleHw (Wiegand.construct sampleDirty 2 2) 50).1
      (Wiegand.begin Mcu.ATmega328P 0 sampleHw (Wiegand.construct sampleDirty 2 2) 50).2.1
      [Call.clear true 60, Call.readBit false 100 100 100]).2.1._bit_count = 1 := by
  decide

/-- C11 (amended). A failed initialization lasts until `clear()`: if `begin()` on
an Uninitialized instance returns false, the status is Error and every
subsequent sequence of `readBit`, `finishRead`, `suspend`, `resume`, `print` and
`begin` calls leaves it Error, captures no bit (bit count and buffer unchanged)
and no `finishRead` in it returns true; `clear()` sets the status to Idle. -/
theorem failed_begin_error (m : Mcu) (this : Nat) (hw : Hw) (w : Wiegand) (now : Nat)
    (calls : List Call) (make_atomic : Bool) (tclear : Nat)
    (hu : w._status = .Uninitialized) (hf : (Wiegand.begin m this hw w now).2.2 = false)
    (hcalls : ∀ c ∈ calls, c.isClear = false) :
    let b := Wiegand.begin m this hw w now
    let r := run m this b.1 b.2.1 calls
    b.2.1._status = .Error ∧
    r.2.1._status = .Error ∧ r.2.1._bit_count = w._bit_count ∧
    r.2.1._rcv_buffer = w._rcv_buffer ∧ (∀ x ∈ r.2.2, x = false) ∧
    (Wiegand.clear r.1 r.2.1 make_atomic tclear).2._status = .Idle := by
  intro b r
  have hb : b.2.1 = { w with _status := .Error } := begin_failed m this hw w now hu hf
  have hbs : b.2.1._status = .Error := by rw [hb]
  obtain ⟨h1, h2, h3, _, h5⟩ :
      r.2.1._status = .Error ∧ r.2.1._bit_count = b.2.1._bit_count ∧
      r.2.1._rcv_buffer = b.2.1._rcv_buffer ∧
      (r.2.1.status = b.2.1.status ∨ r.2.1.status = .Error) ∧ ∀ x ∈ r.2.2, x = false :=
    run_error_fields m this calls b.1 b.2.1 hbs hcalls
  refine ⟨hbs, h1, ?_, ?_, h5, ?_⟩
  · rw [h2, hb]
  · rw [h3, hb]
  · exact (clear_initialized r.1 r.2.1 make_atomic tclear (by rw [h1]; decide)).1

/-- Witness of C11 (amended): the same pin given twice, then an edge and a poll. -/
theorem failed_begin_error_witness :
    (run Mcu.ATmega328P 0
      (Wiegand.begin Mcu.ATmega328P 0 sampleHw (Wiegand.construct sampleDirty 2 2) 50).1
      (Wiegand.begin Mcu.ATmega328P 0 sampleHw (Wiegand.construct sampleDirty 2 2) 50).2.1
      [Call.readBit true 100 100 100, Call.finishRead 9000]).2.1._status = .Error :=
  (failed_begin_error Mcu.ATmega328P 0 sampleHw (Wiegand.construct sampleDirty 2 2) 50
    [Call.readBit true 100 100 100, Call.finishRead 9000] true 10000
    (by decide) (by decide) (by decide)).2.1

/-- An instance in the middle of a frame with 35 bits received, the last at 35000. -/
def sampleCount35 : Wiegand :=
  { _low_int_pin := 2, _high_int_pin := 3, _first_micros := 1000, _bit_micros := 35000,
    _rcv_buffer := [255, 255, 255, 255, 7], _bit_count := 35, _status := .Receiving,
    status := .Idle, bit_count := 0, rcv_buffer := [0, 0, 0, 0, 0], total_micros := 0 }

/-- C15 (the statement fails). With 35 bits received, the edge that brings the
bit count to 36 is accepted: the status stays Receiving, the count is 36 and the
bit is appended; only the following edge gives Error. -/
theorem edge_36_accepted :
    (Wiegand.readBit sampleHw sampleCount35 true 36000 36000 36000).2._status = .Receiving ∧
    (Wiegand.readBit sampleHw sampleCount35 true 36000 36000 36000).2._bit_count = 36 ∧
    (Wiegand.readBit sampleHw sampleCount35 true 36000 36000 36000).2._rcv_buffer =
      [255, 255, 255, 255, 15] ∧
    (feed sampleHw sampleCount35 [(true, 36000), (true, 37000)]).2._status = .Error := by
  decide

/-- C15 (amended). Overflow boundary: when an edge continues or starts a frame
(status Idle, or Receiving with the edge inside the interval), `readBit`
compares the bit count it finds with `WIEGAND_MAX_BITS` and then increments it.
If the count found is below 36 the bit is appended and the status is Receiving,
so the edge that brings the count to 36 is accepted; if the count found has
reached or exceeded 36 the status becomes Error and the bit is not appended. -/
theorem overflow_boundary (hw : Hw) (w : Wiegand) (val : Bool) (t : Nat)
    (h : w._status = .Idle ∨
      (w._status = .Receiving ∧ Paced w._bit_micros t ∧ t < 4294967296)) :
    let r := Wiegand.readBit hw w val t t t
    (w._bit_count < WIEGAND_MAX_BITS →
      r.2._status = .Receiving ∧ r.2._bit_count = w._bit_count + 1 ∧
      r.2._rcv_buffer = shiftIn w._rcv_buffer val) ∧
    (WIEGAND_MAX_BITS ≤ w._bit_count →
      r.2._status = .Error ∧ r.2._bit_count = (w._bit_count + 1) % 256 ∧
      r.2._rcv_buffer = w._rcv_buffer) := by
  intro r
  rcases h with hi | ⟨hr, hp, ht⟩
  · refine ⟨fun hc => ?_, fun hc => ?_⟩
    · have e : r = _ := readBit_first hw w val t t t hi hc
      rw [e]; exact ⟨rfl, rfl, rfl⟩
    · have e : r = _ := readBit_idle_full hw w val t t t hi hc
      rw [e]; exact ⟨rfl, rfl, rfl⟩
  · refine ⟨fun hc => ?_, fun hc => ?_⟩
    · have e : r = _ :=
        (readBit_paced hw w val t t t hr hp ht).trans (storeBit_ok hw w val t hc)
      rw [e]; exact ⟨rfl, rfl, rfl⟩
    · have e : r = _ :=
        (readBit_paced hw w val t t t hr hp ht).trans (storeBit_full hw w val t hc)
      rw [e]; exact ⟨rfl, rfl, rfl⟩

/-- Witness of C15 (amended): the 36th bit of a frame is accepted. -/
theorem overflow_boundary_witness :
    (Wiegand.readBit sampleHw sampleCount35 true 36000 36000 36000).2._status = .Receiving :=
  ((overflow_boundary sampleHw sampleCount35 true 36000
    (Or.inr ⟨by decide, by decide, by decide⟩)).1 (by decide)).1

/-- C17. Overrun restart (drop, not queue): `readBit(v)`, reading one clock value
`t`, called when the private status is Done, or when it is Receiving with
`t >= _bit_micros` and `t - _bit_micros > 5000`, leaves the private status
Receiving, the private bit count exactly 1, the private buffer holding only the
new bit (byte 0 is `v`, the other bytes 0) and both timestamps equal to `t`. -/
theorem overrun_restart (hw : Hw) (w : Wiegand) (val : Bool) (t : Nat)
    (hlen : w._rcv_buffer.length = WIEGAND_MAX_BYTES)
    (h : w._status = .Done ∨
      (w._status = .Receiving ∧ w._bit_micros ≤ t ∧
        t - w._bit_micros > WIEGAND_MAX_BIT_INTERVAL ∧ t < 4294967296)) :
    let r := Wiegand.readBit hw w val t t t
    r.2._status = .Receiving ∧ r.2._bit_count = 1 ∧
    r.2._rcv_buffer = [val.toNat, 0, 0, 0, 0] ∧
    r.2._first_micros = t ∧ r.2._bit_micros = t := by
  intro r
  have hstep : Wiegand.readBit hw w val t t t =
      storeBit (overrun hw w t).1 (overrun hw w t).2 val t := by
    rcases h with hd | ⟨hr, hle, hgap, ht⟩
    · unfold Wiegand.readBit; simp [hd]
    · have hg : subUL t w._bit_micros > WIEGAND_MAX_BIT_INTERVAL := by
        rw [subUL_of_le hle ht]; exact hgap
      unfold Wiegand.readBit; simp [hr, Nat.not_lt.mpr hle, hg]
  have hbuf : shiftIn (zeroBuffer w._rcv_buffer) val = [val.toNat, 0, 0, 0, 0] := by
    rw [zeroBuffer_eq hlen]; cases val <;> decide
  have e : r = _ :=
    hstep.trans (storeBit_ok (overrun hw w t).1 (overrun hw w t).2 val t
      (by simp [overrun, WIEGAND_MAX_BITS]))
  rw [e]
  exact ⟨rfl, rfl, hbuf, rfl, rfl⟩

/-- Witness of C17: an edge at 9000 on an instance holding an unconsumed frame. -/
theorem overrun_restart_witness :
    (Wiegand.readBit sampleHw sampleDirty true 9000 9000 9000).2._rcv_buffer =
      [1, 0, 0, 0, 0] :=
  (overrun_restart sampleHw sampleDirty true 9000 (by decide) (Or.inl (by decide))).2.2.1

/-! ### Invariants of an initialized instance -/

theorem begin_succeeded (m : Mcu) (this : Nat) (hw : Hw) (w : Wiegand) (now : Nat)
    (hb : (Wiegand.begin m this hw w now).2.2 = true) :
    w._status = .Uninitialized ∧
    ∃ hw1 : Hw, (Wiegand.begin m this hw w now).2.1 =
      (Wiegand.clear hw1 { w with _status := .Idle } false now).2 := by
  by_cases hu : w._status = .Uninitialized
  · refine ⟨hu, ?_⟩
    unfold Wiegand.begin at hb ⊢
    simp only [hu, ne_eq, not_true_eq_false, if_false] at hb ⊢
    split at hb
    · simp at hb
    · split at hb
      · simp at hb
      · rename_i h0 h1
        simp only [h0, h1, if_false]
        exact ⟨(Wiegand.attachInterrupts m this
          (Wiegand.attachInterrupts m this
            (pinModeInput (pinModeInput (noInterrupts hw) w._low_int_pin) w._high_int_pin)
            w._low_int_pin false).1 w._high_int_pin true).1, rfl⟩
  · rw [begin_initialized m this hw w now hu] at hb
    simp at hb

theorem storeBit_countInv (hw : Hw) (w : Wiegand) (val : Bool) (m2 : Nat)
    (hc : w._bit_count ≤ WIEGAND_MAX_BITS) : CountInv (storeBit hw w val m2).2 := by
  have h36 : WIEGAND_MAX_BITS = 36 := rfl
  rcases storeBit_cases hw w val m2 with ⟨e, hlt⟩ | ⟨e, hge⟩
  · rw [e]
    refine ⟨by simp, ?_, fun _ => ?_⟩ <;> simp only <;> omega
  · rw [e]
    refine ⟨by simp, ?_, fun h => absurd rfl h⟩
    simp only; omega

theorem readBit_countInv (hw : Hw) (w : Wiegand) (val : Bool) (m0 m1 m2 : Nat)
    (h : CountInv w) : CountInv (Wiegand.readBit hw w val m0 m1 m2).2 := by
  obtain ⟨h1, h2, h3⟩ := h
  rcases readBit_cases hw w val m0 m1 m2 with ⟨e, _⟩ | ⟨e, _⟩ | ⟨e, _⟩ | ⟨e, hi⟩ | ⟨e, hr, _⟩
  · rw [e]; exact ⟨h1, h2, h3⟩
  · rw [e]; exact ⟨by simp, h2, fun h => absurd rfl h⟩
  · rw [e]; exact storeBit_countInv _ _ val m2 (by simp [overrun])
  · rw [e]; exact storeBit_countInv _ _ val m2 (h3 (by rw [hi]; decide))
  · rw [e]; exact storeBit_countInv _ _ val m2 (h3 (by rw [hr]; decide))

theorem finishRead_countInv (hw : Hw) (w : Wiegand) (now : Nat) (h : CountInv w) :
    CountInv (Wiegand.finishRead hw w now).2.1 := by
  obtain ⟨h1, h2, h3⟩ := h
  rcases finishRead_cases hw w now with ⟨e, _⟩ | ⟨e, _⟩ | ⟨e, hr⟩ | ⟨e, _⟩
  · rw [e]; exact ⟨h1, h2, h3⟩
  · rw [e]; exact ⟨by simp, h2, fun h => absurd rfl h⟩
  · rw [e]; exact ⟨by simp, h2, fun _ => h3 (by rw [hr]; decide)⟩
  · rw [e]; exact ⟨h1, h2, h3⟩

theorem clear_countInv (hw : Hw) (w : Wiegand) (make_atomic : Bool) (now : Nat)
    (h : w._status ≠ .Uninitialized) : CountInv (Wiegand.clear hw w make_atomic now).2 := by
  obtain ⟨c1, _, c3, _⟩ := clear_initialized hw w make_atomic now h
  refine ⟨by rw [c1]; decide, by rw [c3]; omega, fun _ => by rw [c3]; omega⟩

theorem exec_countInv (m : Mcu) (this : Nat) (hw : Hw) (w : Wiegand) (c : Call)
    (h : CountInv w) : CountInv (exec m this hw w c).2.1 := by
  rcases exec_cases m this hw w c h.1 with e | ⟨val, m0, m1, m2, e⟩ | ⟨now, e⟩ | ⟨ma, now, e⟩
  · rw [e]; exact h
  · rw [e]; exact readBit_countInv hw w val m0 m1 m2 h
  · rw [e]; exact finishRead_countInv hw w now h
  · rw [e]; exact clear_countInv hw w ma now h.1

set_option maxRecDepth 100000 in
/-- C16 (the statement fails). On an ATmega328P, after a successful `begin()` on
pins 2 and 3, thirty-seven edges 1000 us apart leave the private bit count at
37, above `WIEGAND_MAX_BITS` (the status is then Error). -/
theorem bit_count_reaches_37 :
    (Wiegand.begin Mcu.ATmega328P 0 sampleHw (Wiegand.construct sampleDirty 2 3) 50).2.2 = true ∧
    (feed (Wiegand.begin Mcu.ATmega328P 0 sampleHw (Wiegand.construct sampleDirty 2 3) 50).1
      (Wiegand.begin Mcu.ATmega328P 0 sampleHw (Wiegand.construct sampleDirty 2 3) 50).2.1
      sampleEdges37).2._bit_count = 37 ∧
    WIEGAND_MAX_BITS < 37 ∧
    (feed (Wiegand.begin Mcu.ATmega328P 0 sampleHw (Wiegand.construct sampleDirty 2 3) 50).1
      (Wiegand.begin Mcu.ATmega328P 0 sampleHw (Wiegand.construct sampleDirty 2 3) 50).2.1
      sampleEdges37).2._status = .Error := by
  decide

/-- C16 (amended). Bit-count bound: in every state reached from a successful
`begin()` by any sequence of calls at any clock values, the private bit count
never exceeds `WIEGAND_MAX_BITS + 1` = 37, and it never exceeds
`WIEGAND_MAX_BITS` = 36 while the private status is not Error. -/
theorem bit_count_bound (m : Mcu) (this : Nat) (hw : Hw) (w : Wiegand) (now : Nat)
    (calls : List Call) (hb : (Wiegand.begin m this hw w now).2.2 = true) :
    let b := Wiegand.begin m this hw w now
    let r := run m this b.1 b.2.1 calls
    r.2.1._bit_count ≤ WIEGAND_MAX_BITS + 1 ∧
    (r.2.1._status ≠ .Error → r.2.1._bit_count ≤ WIEGAND_MAX_BITS) := by
  intro b r
  obtain ⟨_, hw1, e⟩ := begin_succeeded m this hw w now hb
  have h0 : CountInv b.2.1 := by
    show CountInv (Wiegand.begin m this hw w now).2.1
    rw [e]; exact clear_countInv hw1 _ false now (by simp)
  have hr : CountInv r.2.1 :=
    run_invariant CountInv m this (fun h x c hx => exec_countInv m this h x c hx) calls _ _ h0
  exact ⟨hr.2.1, hr.2.2⟩

/-- Witness of C16 (amended): a begun instance after an edge and a poll. -/
theorem bit_count_bound_witness :
    (run Mcu.ATmega328P 0
      (Wiegand.begin Mcu.ATmega328P 0 sampleHw (Wiegand.construct sampleDirty 2 3) 50).1
      (Wiegand.begin Mcu.ATmega328P 0 sampleHw (Wiegand.construct sampleDirty 2 3) 50).2.1
      [Call.readBit true 100 100 100, Call.finishRead 9000]).2.1._bit_count ≤
      WIEGAND_MAX_BITS + 1 :=
  (bit_count_bound Mcu.ATmega328P 0 sampleHw (Wiegand.construct sampleDirty 2 3) 50
    [Call.readBit true 100 100 100, Call.finishRead 9000] (by decide)).1

theorem pow_count_le {c : Nat} (h : c ≤ WIEGAND_MAX_BITS) : 2 ^ c ≤ 2 ^ WIEGAND_MAX_BITS :=
  Nat.pow_le_pow_right (by decide) h

theorem storeBit_frameInv (hw : Hw) (w : Wiegand) (val : Bool) (m2 : Nat)
    (hb : Bytes w._rcv_buffer) (hp : Bytes w.rcv_buffer)
    (hv : leValue w._rcv_buffer < 2 ^ WIEGAND_MAX_BITS)
    (hpv : leValue w.rcv_buffer < 2 ^ WIEGAND_MAX_BITS)
    (hc : w._bit_count ≤ WIEGAND_MAX_BITS) (hvc : leValue w._rcv_buffer < 2 ^ w._bit_count) :
    FrameInv (storeBit hw w val m2).2 := by
  have h36 : WIEGAND_MAX_BITS = 36 := rfl
  rcases storeBit_cases hw w val m2 with ⟨e, hlt⟩ | ⟨e, hge⟩
  · rw [e]
    obtain ⟨sb, sv⟩ := shiftIn_bytes val hb
    have hbit : val.toNat < 2 := by cases val <;> simp
    have hle : 2 ^ (w._bit_count + 1) ≤ 2 ^ WIEGAND_MAX_BITS := pow_count_le (by omega)
    have hsmall : 2 * leValue w._rcv_buffer + val.toNat < 2 ^ (w._bit_count + 1) := by
      rw [pow_succ]; omega
    have hval : leValue (shiftIn w._rcv_buffer val) = 2 * leValue w._rcv_buffer + val.toNat := by
      rw [sv]; apply Nat.mod_eq_of_lt
      rw [h36] at hle; omega
    refine ⟨by simp, sb, hp, ?_, hpv, fun _ => ⟨?_, ?_⟩, fun _ => ?_⟩
    · rw [hval]; omega
    · simp only; omega
    · rw [hval]; exact hsmall
    · simp only; omega
  · rw [e]
    exact ⟨by simp, hb, hp, hv, hpv, fun h => absurd rfl h, fun h => by simp at h⟩

theorem readBit_frameInv (hw : Hw) (w : Wiegand) (val : Bool) (m0 m1 m2 : Nat)
    (h : FrameInv w) : FrameInv (Wiegand.readBit hw w val m0 m1 m2).2 := by
  obtain ⟨h1, h2, h3, h4, h5, h6, h7⟩ := h
  rcases readBit_cases hw w val m0 m1 m2 with ⟨e, _⟩ | ⟨e, _⟩ | ⟨e, _⟩ | ⟨e, hi⟩ | ⟨e, hr, _⟩
  · rw [e]; exact ⟨h1, h2, h3, h4, h5, h6, h7⟩
  · rw [e]; exact ⟨by simp, h2, h3, h4, h5, fun h => absurd rfl h, fun h => by simp at h⟩
  · rw [e]
    have hz : (overrun hw w m1).2._rcv_buffer = List.replicate WIEGAND_MAX_BYTES 0 :=
      zeroBuffer_eq h2.1
    refine storeBit_frameInv _ _ val m2 ?_ h3 ?_ h5 ?_ ?_
    · rw [hz]; exact bytes_zero
    · rw [hz, leValue_zero]; exact Nat.pos_pow_of_pos _ (by decide)
    · simp [overrun]
    · rw [hz, leValue_zero]; exact Nat.pos_pow_of_pos _ (by decide)
  · rw [e]
    obtain ⟨a, b⟩ := h6 (by rw [hi]; decide)
    exact storeBit_frameInv hw _ val m2 h2 h3 h4 h5 a b
  · rw [e]
    obtain ⟨a, b⟩ := h6 (by rw [hr]; decide)
    exact storeBit_frameInv hw _ val m2 h2 h3 h4 h5 a b

theorem finishRead_frameInv (hw : Hw) (w : Wiegand) (now : Nat) (h : FrameInv w) :
    FrameInv (Wiegand.finishRead hw w now).2.1 := by
  obtain ⟨h1, h2, h3, h4, h5, h6, h7⟩ := h
  rcases finishRead_cases hw w now with ⟨e, _⟩ | ⟨e, _⟩ | ⟨e, hr⟩ | ⟨e, _⟩
  · rw [e]; exact ⟨h1, h2, h3, h4, h5, h6, h7⟩
  · rw [e]; exact ⟨by simp, h2, h3, h4, h5, fun h => absurd rfl h, fun h => by simp at h⟩
  · rw [e]
    have hcopy : copyBuffer w.rcv_buffer w._rcv_buffer = w._rcv_buffer :=
      copyBuffer_eq h3.1 h2.1
    refine ⟨by simp, h2, ?_, h4, ?_, fun _ => h6 (by rw [hr]; decide),
      fun _ => h7 (Or.inl hr)⟩
    · simp only; rw [hcopy]; exact h2
    · simp only; rw [hcopy]; exact h4
  · rw [e]; exact ⟨h1, h2, h3, h4, h5, h6, h7⟩

theorem clear_frameInv (hw : Hw) (w : Wiegand) (make_atomic : Bool) (now : Nat)
    (h : w._status ≠ .Uninitialized) (hwf : w.WellFormed) :
    FrameInv (Wiegand.clear hw w make_atomic now).2 := by
  obtain ⟨c1, _, c3, _, c5, c6, _, _⟩ := clear_fields hw w make_atomic now h hwf
  have hpos : 0 < 2 ^ WIEGAND_MAX_BITS := Nat.pos_pow_of_pos _ (by decide)
  refine ⟨by rw [c1]; decide, by rw [c5]; exact bytes_zero, by rw [c6]; exact bytes_zero,
    by rw [c5, leValue_zero]; exact hpos, by rw [c6, leValue_zero]; exact hpos,
    fun _ => ⟨by rw [c3]; omega, by rw [c5, c3, leValue_zero]; decide⟩, fun hs => ?_⟩
  rw [c1] at hs
  rcases hs with hs | hs <;> exact absurd hs (by decide)

theorem exec_frameInv (m : Mcu) (this : Nat) (hw : Hw) (w : Wiegand) (c : Call)
    (h : FrameInv w) : FrameInv (exec m this hw w c).2.1 := by
  rcases exec_cases m this hw w c h.1 with e | ⟨val, m0, m1, m2, e⟩ | ⟨now, e⟩ | ⟨ma, now, e⟩
  · rw [e]; exact h
  · rw [e]; exact readBit_frameInv hw w val m0 m1 m2 h
  · rw [e]; exact finishRead_frameInv hw w now h
  · rw [e]; exact clear_frameInv hw w ma now h.1 ⟨h.2.1.1, h.2.2.1.1⟩

theorem top_byte_lt {buf : List Nat} (hl : buf.length = WIEGAND_MAX_BYTES)
    (hv : leValue buf < 2 ^ WIEGAND_MAX_BITS) : buf.getD 4 0 < 16 := by
  obtain ⟨a, b, c, d, e, rfl⟩ := length_five hl
  have h36 : (2 : Nat) ^ WIEGAND_MAX_BITS = 68719476736 := by decide
  rw [h36] at hv
  simp only [leValue] at hv
  simp only [List.getD_cons_succ, List.getD_cons_zero]
  omega

/-- C20. No captured bit is ever shifted out of the buffer: in every state
reached from a successful `begin()` (on an instance whose buffers are arrays of
`WIEGAND_MAX_BYTES` bytes) by any sequence of calls, if the private status is
Receiving or Done then `1 <= _bit_count <= 36` and the private buffer read as a
little-endian integer is below `2 ^ _bit_count`; whenever `finishRead()` then
returns true, public `bit_count` is between 1 and 36 and the public buffer value
is below `2 ^ bit_count`; and the top four bits of `rcv_buffer[4]` are 0 in
every such state. -/
theorem no_bit_shifted_out (m : Mcu) (this : Nat) (hw : Hw) (w : Wiegand) (now : Nat)
    (calls : List Call) (tpoll : Nat) (hwf : w.WellFormed)
    (hb : (Wiegand.begin m this hw w now).2.2 = true) :
    let b := Wiegand.begin m this hw w now
    let r := run m this b.1 b.2.1 calls
    let p := Wiegand.finishRead r.1 r.2.1 tpoll
    (r.2.1._status = .Receiving ∨ r.2.1._status = .Done →
      1 ≤ r.2.1._bit_count ∧ r.2.1._bit_count ≤ WIEGAND_MAX_BITS ∧
      leValue r.2.1._rcv_buffer < 2 ^ r.2.1._bit_count) ∧
    (p.2.2 = true →
      1 ≤ p.2.1.bit_count ∧ p.2.1.bit_count ≤ WIEGAND_MAX_BITS ∧
      leValue p.2.1.rcv_buffer < 2 ^ p.2.1.bit_count) ∧
    r.2.1.rcv_buffer.getD 4 0 < 16 ∧ p.2.1.rcv_buffer.getD 4 0 < 16 := by
  intro b r p
  obtain ⟨_, hw1, e⟩ := begin_succeeded m this hw w now hb
  have h0 : FrameInv b.2.1 := by
    show FrameInv (Wiegand.begin m this hw w now).2.1
    rw [e]; exact clear_frameInv hw1 _ false now (by simp) hwf
  have hr : FrameInv r.2.1 :=
    run_invariant FrameInv m this (fun h x c hx => exec_frameInv m this h x c hx) calls _ _ h0
  have hp : FrameInv p.2.1 := finishRead_frameInv r.1 r.2.1 tpoll hr
  obtain ⟨_, r2, r3, _, r5, r6, r7⟩ := hr
  refine ⟨fun hs => ?_, fun ht => ?_, top_byte_lt r3.1 r5, top_byte_lt hp.2.2.1.1 hp.2.2.2.2.1⟩
  · have hne : r.2.1._status ≠ .Error := by
      rcases hs with hs | hs <;> rw [hs] <;> decide
    exact ⟨r7 hs, (r6 hne).1, (r6 hne).2⟩
  · obtain ⟨hrecv, heq⟩ := finishRead_true r.1 r.2.1 tpoll ht
    have hne : r.2.1._status ≠ .Error := by rw [hrecv]; decide
    have hcopy : copyBuffer r.2.1.rcv_buffer r.2.1._rcv_buffer = r.2.1._rcv_buffer :=
      copyBuffer_eq r3.1 r2.1
    have e1 : p.2.1.bit_count = r.2.1._bit_count := by
      show (Wiegand.finishRead r.1 r.2.1 tpoll).2.1.bit_count = _; rw [heq]
    have e2 : p.2.1.rcv_buffer = r.2.1._rcv_buffer := by
      show (Wiegand.finishRead r.1 r.2.1 tpoll).2.1.rcv_buffer = _; rw [heq]; exact hcopy
    rw [e1, e2]
    exact ⟨r7 (Or.inl hrecv), (r6 hne).1, (r6 hne).2⟩

/-- Witness of C20: a begun instance after two edges, polled 7000 us later. -/
theorem no_bit_shifted_out_witness :
    (run Mcu.ATmega328P 0
      (Wiegand.begin Mcu.ATmega328P 0 sampleHw (Wiegand.construct sampleDirty 2 3) 50).1
      (Wiegand.begin Mcu.ATmega328P 0 sampleHw (Wiegand.construct sampleDirty 2 3) 50).2.1
      [Call.readBit true 1000 1000 1000, Call.readBit true 2000 2000 2000]).2.1.rcv_buffer.getD
        4 0 < 16 :=
  (no_bit_shifted_out Mcu.ATmega328P 0 sampleHw (Wiegand.construct sampleDirty 2 3) 50
    [Call.readBit true 1000 1000 1000, Call.readBit true 2000 2000 2000] 9000
    (by decide) (by decide)).2.2.1

/-! ### Binding of the interrupt lines -/

theorem attachSlot0_ok (this : Nat) (hw : Hw) (meaning : Bool) (intf : Nat) :
    (attachSlot0 this hw meaning intf).2 = true ↔ hw._int0_instance = none := by
  unfold attachSlot0
  split <;> simp [*]

theorem attachSlot0_owner (this : Nat) (hw : Hw) (meaning : Bool) (intf : Nat)
    (h : hw._int0_instance = none) (k : Nat) :
    (attachSlot0 this hw meaning intf).1.owner k = if k = 0 then some this else hw.owner k := by
  unfold attachSlot0
  rcases k with _ | _ | _ | _ | _ | _ | k <;>
    cases meaning <;> simp [h, Hw.owner, bitSetEIFR, attachInterrupt]

theorem attachSlot1_ok (this : Nat) (hw : Hw) (meaning : Bool) (intf : Nat) :
    (attachSlot1 this hw meaning intf).2 = true ↔ hw._int1_instance = none := by
  unfold attachSlot1
  split <;> simp [*]

theorem attachSlot1_owner (this : Nat) (hw : Hw) (meaning : Bool) (intf : Nat)
    (h : hw._int1_instance = none) (k : Nat) :
    (attachSlot1 this hw meaning intf).1.owner k = if k = 1 then some this else hw.owner k := by
  unfold attachSlot1
  rcases k with _ | _ | _ | _ | _ | _ | k <;>
    cases meaning <;> simp [h, Hw.owner, bitSetEIFR, attachInterrupt]

theorem attachSlot2_ok (this : Nat) (hw : Hw) (meaning : Bool) (intf : Nat) :
    (attachSlot2 this hw meaning intf).2 = true ↔ hw._int2_instance = none := by
  unfold attachSlot2
  split <;> simp [*]

theorem attachSlot2_owner (this : Nat) (hw : Hw) (meaning : Bool) (intf : Nat)
    (h : hw._int2_instance = none) (k : Nat) :
    (attachSlot2 this hw meaning intf).1.owner k = if k = 2 then some this else hw.owner k := by
  unfold attachSlot2
  rcases k with _ | _ | _ | _ | _ | _ | k <;>
    cases meaning <;> simp [h, Hw.owner, bitSetEIFR, attachInterrupt]

theorem attachSlot3_ok (this : Nat) (hw : Hw) (meaning : Bool) (intf : Nat) :
    (attachSlot3 this hw meaning intf).2 = true ↔ hw._int3_instance = none := by
  unfold attachSlot3
  split <;> simp [*]

theorem attachSlot3_owner (this : Nat) (hw : Hw) (meaning : Bool) (intf : Nat)
    (h : hw._int3_instance = none) (k : Nat) :
    (attachSlot3 this hw meaning intf).1.owner k = if k = 3 then some this else hw.owner k := by
  unfold attachSlot3
  rcases k with _ | _ | _ | _ | _ | _ | k <;>
    cases meaning <;> simp [h, Hw.owner, bitSetEIFR, attachInterrupt]

theorem attachSlot4_ok (this : Nat) (hw : Hw) (meaning : Bool) (intf : Nat) :
    (attachSlot4 this hw meaning intf).2 = true ↔ hw._int4_instance = none := by
  unfold attachSlot4
  split <;> simp [*]

theorem attachSlot4_owner (this : Nat) (hw : Hw) (meaning : Bool) (intf : Nat)
    (h : hw._int4_instance = none) (k : Nat) :
    (attachSlot4 this hw meaning intf).1.owner k = if k = 4 then some this else hw.owner k := by
  unfold attachSlot4
  rcases k with _ | _ | _ | _ | _ | _ | k <;>
    cases meaning <;> simp [h, Hw.owner, bitSetEIFR, attachInterrupt]

theorem attachSlot5_ok (this : Nat) (hw : Hw) (meaning : Bool) (intf : Nat) :
    (attachSlot5 this hw meaning intf).2 = true ↔ hw._int5_instance = none := by
  unfold attachSlot5
  split <;> simp [*]

theorem attachSlot5_owner (this : Nat) (hw : Hw) (meaning : Bool) (intf : Nat)
    (h : hw._int5_instance = none) (k : Nat) :
    (attachSlot5 this hw meaning intf).1.owner k = if k = 5 then some this else hw.owner k := by
  unfold attachSlot5
  rcases k with _ | _ | _ | _ | _ | _ | k <;>
    cases meaning <;> simp [h, Hw.owner, bitSetEIFR, attachInterrupt]

theorem attach_true_iff (m : Mcu) (this : Nat) (hw : Hw) (pin : Nat) (meaning : Bool) :
    (Wiegand.attachInterrupts m this hw pin meaning).2 = true ↔
      ∃ n, slotOf m pin = some n ∧ hw.owner n = none := by
  unfold Wiegand.attachInterrupts slotOf
  cases m <;> simp [Mcu.defined] <;> split <;>
    simp [attachSlot0_ok, attachSlot1_ok, attachSlot2_ok, attachSlot3_ok, attachSlot4_ok,
      attachSlot5_ok, Hw.owner]

theorem attach_owner (m : Mcu) (this : Nat) (hw : Hw) (pin : Nat) (meaning : Bool) (n : Nat)
    (hn : slotOf m pin = some n) (h : hw.owner n = none) (k : Nat) :
    (Wiegand.attachInterrupts m this hw pin meaning).1.owner k =
      if k = n then some this else hw.owner k := by
  unfold Wiegand.attachInterrupts
  unfold slotOf at hn
  cases m <;> simp [Mcu.defined] at hn ⊢ <;> split at hn <;> simp at hn <;> subst hn <;>
    simp only [Hw.owner] at h <;>
    first
      | exact attachSlot0_owner this hw meaning _ h k
      | exact attachSlot1_owner this hw meaning _ h k
      | exact attachSlot2_owner this hw meaning _ h k
      | exact attachSlot3_owner this hw meaning _ h k
      | exact attachSlot4_owner this hw meaning _ h k
      | exact attachSlot5_owner this hw meaning _ h k

theorem slotOf_injective (m : Mcu) (p q n : Nat) (hp : slotOf m p = some n)
    (hq : slotOf m q = some n) : p = q := by
  unfold slotOf at hp hq
  cases m <;> simp at hp hq <;> split at hp <;> simp at hp <;> split at hq <;> simp at hq <;>
    omega

theorem owner_congr (a b : Hw) (h0 : a._int0_instance = b._int0_instance)
    (h1 : a._int1_instance = b._int1_instance) (h2 : a._int2_instance = b._int2_instance)
    (h3 : a._int3_instance = b._int3_instance) (h4 : a._int4_instance = b._int4_instance)
    (h5 : a._int5_instance = b._int5_instance) (k : Nat) : a.owner k = b.owner k := by
  rcases k with _ | _ | _ | _ | _ | _ | k <;> simp [Hw.owner, *]

theorem begin_result (m : Mcu) (this : Nat) (hw : Hw) (w : Wiegand) (now : Nat)
    (hu : w._status = .Uninitialized) :
    (Wiegand.begin m this hw w now).2.2 =
      ((Wiegand.attachInterrupts m this
          (pinModeInput (pinModeInput (noInterrupts hw) w._low_int_pin) w._high_int_pin)
          w._low_int_pin false).2 &&
       (Wiegand.attachInterrupts m this
          (Wiegand.attachInterrupts m this
            (pinModeInput (pinModeInput (noInterrupts hw) w._low_int_pin) w._high_int_pin)
            w._low_int_pin false).1 w._high_int_pin true).2) := by
  unfold Wiegand.begin
  simp only [hu, ne_eq, not_true_eq_false, if_false]
  split
  · rename_i h0; simp at h0; simp [h0]
  · rename_i h0; simp at h0
    split
    · rename_i h1; simp at h1; simp [h0, h1]
    · rename_i h1; simp at h1; simp [h0, h1]

theorem begin_hw (m : Mcu) (this : Nat) (hw : Hw) (w : Wiegand) (now : Nat)
    (hb : (Wiegand.begin m this hw w now).2.2 = true) (k : Nat) :
    (Wiegand.begin m this hw w now).1.owner k =
      (Wiegand.attachInterrupts m this
          (Wiegand.attachInterrupts m this
            (pinModeInput (pinModeInput (noInterrupts hw) w._low_int_pin) w._high_int_pin)
            w._low_int_pin false).1 w._high_int_pin true).1.owner k := by
  by_cases hu : w._status = .Uninitialized
  · unfold Wiegand.begin at hb ⊢
    simp only [hu, ne_eq, not_true_eq_false, if_false] at hb ⊢
    split at hb
    · simp at hb
    · split at hb
      · simp at hb
      · rename_i h0 h1
        simp only [h0, h1, if_false]
        apply owner_congr <;> simp [Wiegand.clear, interrupts]
  · rw [begin_initialized m this hw w now hu] at hb
    simp at hb

theorem begin_true_iff (m : Mcu) (this : Nat) (hw : Hw) (w : Wiegand) (now : Nat)
    (hu : w._status = .Uninitialized) :
    (Wiegand.begin m this hw w now).2.2 = true ↔
      ∃ a c, slotOf m w._low_int_pin = some a ∧ slotOf m w._high_int_pin = some c ∧
        w._low_int_pin ≠ w._high_int_pin ∧ hw.owner a = none ∧ hw.owner c = none := by
  have hown : ∀ k, (pinModeInput (pinModeInput (noInterrupts hw) w._low_int_pin)
      w._high_int_pin).owner k = hw.owner k := fun k =>
    owner_congr _ _ rfl rfl rfl rfl rfl rfl k
  rw [begin_result m this hw w now hu, Bool.and_eq_true, attach_true_iff, attach_true_iff]
  constructor
  · rintro ⟨⟨a, ha, hfa⟩, ⟨c, hc, hfc⟩⟩
    rw [attach_owner m this _ _ false a ha hfa c] at hfc
    have hac : c ≠ a := by
      intro h; rw [if_pos h] at hfc; exact Option.noConfusion hfc
    rw [if_neg hac] at hfc
    rw [hown] at hfa hfc
    refine ⟨a, c, ha, hc, ?_, hfa, hfc⟩
    intro hpins
    rw [hpins, hc] at ha
    exact hac (Option.some.inj ha)
  · rintro ⟨a, c, ha, hc, hne, hfa, hfc⟩
    have hfa' := (hown a).trans hfa
    refine ⟨⟨a, ha, hfa'⟩, ⟨c, hc, ?_⟩⟩
    rw [attach_owner m this _ _ false a ha hfa' c]
    have hac : c ≠ a := by
      intro h; rw [h] at hc
      exact hne (slotOf_injective m _ _ a ha hc)
    rw [if_neg hac, hown]; exact hfc

theorem begin_claims (m : Mcu) (this : Nat) (hw : Hw) (w : Wiegand) (now : Nat)
    (hb : (Wiegand.begin m this hw w now).2.2 = true) (a c : Nat)
    (ha : slotOf m w._low_int_pin = some a) (hc : slotOf m w._high_int_pin = some c) :
    (Wiegand.begin m this hw w now).1.owner a = some this ∧
    (Wiegand.begin m this hw w now).1.owner c = some this := by
  obtain ⟨hu, _⟩ := begin_succeeded m this hw w now hb
  have hres := hb
  rw [begin_result m this hw w now hu, Bool.and_eq_true, attach_true_iff, attach_true_iff]
    at hres
  obtain ⟨⟨a', ha', hfa⟩, ⟨c', hc', hfc⟩⟩ := hres
  rw [ha] at ha'; rw [hc] at hc'
  cases Option.some.inj ha'; cases Option.some.inj hc'
  rw [begin_hw m this hw w now hb, begin_hw m this hw w now hb,
    attach_owner m this _ _ true c hc hfc a, attach_owner m this _ _ true c hc hfc c,
    attach_owner m this _ _ false a ha hfa a]
  simp

/-- C13. Binding is first-come-first-served: on an Uninitialized instance (whose
buffers are arrays of `WIEGAND_MAX_BYTES` bytes) `begin()` returns true exactly
when the DATA0 pin and the DATA1 pin both map to an interrupt line of the target
board, the two pins are different, and the owner pointer of neither line is
already set; it then leaves private and public status Idle with zeroed buffers
and counts, and otherwise returns false with status Error. After a successful
`begin()` every `begin()` of an Uninitialized instance that names one of the two
bound pins returns false. -/
theorem begin_first_come (m : Mcu) (this : Nat) (hw : Hw) (w : Wiegand) (now : Nat)
    (hu : w._status = .Uninitialized) (hwf : w.WellFormed) :
    let b := Wiegand.begin m this hw w now
    (b.2.2 = true ↔
      ∃ a c, slotOf m w._low_int_pin = some a ∧ slotOf m w._high_int_pin = some c ∧
        w._low_int_pin ≠ w._high_int_pin ∧ hw.owner a = none ∧ hw.owner c = none) ∧
    (b.2.2 = true →
      b.2.1._status = .Idle ∧ b.2.1.status = .Idle ∧ b.2.1._bit_count = 0 ∧
      b.2.1.bit_count = 0 ∧ b.2.1._rcv_buffer = List.replicate WIEGAND_MAX_BYTES 0 ∧
      b.2.1.rcv_buffer = List.replicate WIEGAND_MAX_BYTES 0) ∧
    (b.2.2 = false → b.2.1._status = .Error) ∧
    (b.2.2 = true → ∀ (this2 : Nat) (w2 : Wiegand) (now2 : Nat),
      w2._status = .Uninitialized →
      (w2._low_int_pin = w._low_int_pin ∨ w2._low_int_pin = w._high_int_pin ∨
        w2._high_int_pin = w._low_int_pin ∨ w2._high_int_pin = w._high_int_pin) →
      (Wiegand.begin m this2 b.1 w2 now2).2.2 = false) := by
  intro b
  refine ⟨begin_true_iff m this hw w now hu, fun hb => ?_, fun hb => ?_, fun hb => ?_⟩
  · obtain ⟨_, hw1, e⟩ := begin_succeeded m this hw w now hb
    obtain ⟨c1, c2, c3, c4, c5, c6, _, _⟩ :=
      clear_fields hw1 { w with _status := .Idle } false now (by simp) hwf
    have e' : b.2.1 = _ := e
    rw [e']
    exact ⟨c1, c2, c3, c4, c5, c6⟩
  · have e : b.2.1 = _ := begin_failed m this hw w now hu hb
    rw [e]
  · intro this2 w2 now2 hu2 hpin
    obtain ⟨a, c, ha, hc, _, _, _⟩ := (begin_true_iff m this hw w now hu).mp hb
    obtain ⟨oa, oc⟩ := begin_claims m this hw w now hb a c ha hc
    cases hres : (Wiegand.begin m this2 b.1 w2 now2).2.2 with
    | false => rfl
    | true =>
      obtain ⟨a2, c2, ha2, hc2, _, hfa2, hfc2⟩ := (begin_true_iff m this2 b.1 w2 now2 hu2).mp hres
      rcases hpin with h | h | h | h
      · rw [h, ha] at ha2; cases Option.some.inj ha2
        rw [show b.1.owner a = some this from oa] at hfa2; exact Option.noConfusion hfa2
      · rw [h, hc] at ha2; cases Option.some.inj ha2
        rw [show b.1.owner c = some this from oc] at hfa2; exact Option.noConfusion hfa2
      · rw [h, ha] at hc2; cases Option.some.inj hc2
        rw [show b.1.owner a = some this from oa] at hfc2; exact Option.noConfusion hfc2
      · rw [h, hc] at hc2; cases Option.some.inj hc2
        rw [show b.1.owner c = some this from oc] at hfc2; exact Option.noConfusion hfc2

/-- Witness of C13: on an ATmega328P pins 2 and 3 bind on a fresh board. -/
theorem begin_first_come_witness :
    (Wiegand.begin Mcu.ATmega328P 0 sampleHw (Wiegand.construct sampleDirty 2 3) 50).2.2 = true :=
  (begin_first_come Mcu.ATmega328P 0 sampleHw (Wiegand.construct sampleDirty 2 3) 50
    (by decide) (by decide)).1.mpr ⟨0, 1, by decide, by decide, by decide, by decide, by decide⟩

/-! ## C21 -/

theorem attach_sregI (m : Mcu) (this : Nat) (hw : Hw) (pin : Nat) (meaning : Bool) :
    (Wiegand.attachInterrupts m this hw pin meaning).1.sregI = hw.sregI := by
  unfold Wiegand.attachInterrupts
  cases m <;> simp [Mcu.defined] <;> split <;>
    simp only [attachSlot0, attachSlot1, attachSlot2, attachSlot3, attachSlot4, attachSlot5] <;>
    (try split) <;> cases meaning <;> simp [bitSetEIFR, attachInterrupt]

/-- The critical section of `finishRead` is balanced: called with interrupts
enabled it returns with interrupts enabled, on every path. -/
theorem finishRead_sregI (hw : Hw) (w : Wiegand) (now : Nat) (h : hw.sregI = true) :
    (Wiegand.finishRead hw w now).1.sregI = true := by
  rcases finishRead_cases hw w now with ⟨e, _⟩ | ⟨e, _⟩ | ⟨e, _⟩ | ⟨e, _⟩
  · rw [e]; exact h
  · rw [e]; rfl
  · rw [e]; rfl
  · rw [e]; rfl

/-- The critical section of `clear(true)` is balanced, and `clear(false)` does
not touch the interrupt flag. -/
theorem clear_sregI (hw : Hw) (w : Wiegand) (make_atomic : Bool) (now : Nat)
    (h : hw.sregI = true) : (Wiegand.clear hw w make_atomic now).1.sregI = true := by
  unfold Wiegand.clear
  by_cases hu : w._status = .Uninitialized
  · simp [hu, h]
  · cases make_atomic <;> simp [hu, h, interrupts, noInterrupts]

/-- The paths of `begin()` that are balanced: the immediate return on an
initialized instance and the successful initialization. -/
theorem begin_sregI (m : Mcu) (this : Nat) (hw : Hw) (w : Wiegand) (now : Nat)
    (h : hw.sregI = true)
    (hpath : w._status ≠ .Uninitialized ∨ (Wiegand.begin m this hw w now).2.2 = true) :
    (Wiegand.begin m this hw w now).1.sregI = true := by
  by_cases hu : w._status = .Uninitialized
  · rcases hpath with hn | hb
    · exact absurd hu hn
    · unfold Wiegand.begin at hb ⊢
      simp only [hu, ne_eq, not_true_eq_false, if_false] at hb ⊢
      split at hb
      · simp at hb
      · split at hb
        · simp at hb
        · rename_i h0 h1
          simp only [h0, h1, if_false]
          rfl
  · rw [begin_initialized m this hw w now hu]; exact h

/-- The two failure paths of `begin()` (Wiegand.cpp:197-206) are not balanced:
whenever `begin()` on an Uninitialized instance returns false, it returns with
the global interrupt flag cleared. -/
theorem begin_failure_sregI (m : Mcu) (this : Nat) (hw : Hw) (w : Wiegand) (now : Nat)
    (hu : w._status = .Uninitialized) (hf : (Wiegand.begin m this hw w now).2.2 = false) :
    (Wiegand.begin m this hw w now).1.sregI = false := by
  unfold Wiegand.begin at hf ⊢
  simp only [hu, ne_eq, not_true_eq_false, if_false] at hf ⊢
  split
  · simp only [attach_sregI]; rfl
  · split
    · simp only [attach_sregI]; rfl
    · rename_i h0 h1
      simp [h0, h1] at hf

/-- C21 (evaluation of the code). On an ATmega328P with interrupts enabled,
`begin()` on an instance constructed on pins 5 and 3 (pin 5 has no interrupt
line: the first binding fails) and on an instance constructed on pins 2 and 2
(the second binding finds the line already owned) returns false with the global
interrupt flag cleared: both failure returns come after `noInterrupts()` and
before `interrupts()`. On pins 2 and 3 `begin()` succeeds and returns with
interrupts enabled, as do `finishRead()` and `clear(true)`. -/
theorem begin_failure_interrupts_off :
    sampleHw.sregI = true ∧
    (Wiegand.begin Mcu.ATmega328P 0 sampleHw (Wiegand.construct sampleDirty 5 3) 50).2.2 = false ∧
    (Wiegand.begin Mcu.ATmega328P 0 sampleHw
      (Wiegand.construct sampleDirty 5 3) 50).1.sregI = false ∧
    (Wiegand.begin Mcu.ATmega328P 0 sampleHw (Wiegand.construct sampleDirty 2 2) 50).2.2 = false ∧
    (Wiegand.begin Mcu.ATmega328P 0 sampleHw
      (Wiegand.construct sampleDirty 2 2) 50).1.sregI = false ∧
    (Wiegand.begin Mcu.ATmega328P 0 sampleHw (Wiegand.construct sampleDirty 2 3) 50).2.2 = true ∧
    (Wiegand.begin Mcu.ATmega328P 0 sampleHw
      (Wiegand.construct sampleDirty 2 3) 50).1.sregI = true ∧
    (Wiegand.finishRead sampleHw sampleReceiving 8000).1.sregI = true ∧
    (Wiegand.clear sampleHw sampleDirty true 50).1.sregI = true := by
  decide
